import Mathlib

/-!
Verification of the Agentify orchestration engine.

This file gives a shallow embedding of the orchestration/routing core of the
repository — the Workflow DAG scheduler (`resources/agents/main_workflow.py`),
the Swarm handoff loop (`resources/agents/main_swarm.py`), the Graph routing
cascade (`resources/agents/main_graph.py`) and the shared argument validation
and response normalization (`resources/agents/shared/orchestrator_utils.py`) —
and proves the specified properties about it.

Modelling conventions:
* Python `dict` values appear as association lists in insertion order; keys of
  a real dict are unique, which shows up as `Nodup` hypotheses where needed.
* Remote agent invocation is an external collaborator; it is modelled as a
  function parameter (`respond`), total when the property assumes success and
  `Except`-valued where failures matter.
* `json.loads` is the Python standard library, external to the repository; it
  is modelled as a `parse : String → Option Json` parameter over an explicit
  `Json` value type (`none` models `json.JSONDecodeError`).
* Python string primitives `str.lower()/.upper()/.strip()` are modelled for
  the ASCII range actually exercised by the orchestrator.
-/

namespace Agentify

/-- First-match association-list lookup, modelling Python dict lookup. -/
def alookup {α : Type} : List (String × α) → String → Option α
  | [], _ => none
  | (k2, v) :: rest, k => if k2 = k then some v else alookup rest k

/-- Model of Python `str.lower()` on the ASCII range. -/
def pyLowerChar (c : Char) : Char :=
  if 'A' ≤ c ∧ c ≤ 'Z' then Char.ofNat (c.toNat + 32) else c

/-- Model of Python `str.lower()` on the ASCII range. -/
def pyLower (s : String) : String := ⟨s.data.map pyLowerChar⟩

/-- Model of Python `str.upper()` on the ASCII range. -/
def pyUpperChar (c : Char) : Char :=
  if 'a' ≤ c ∧ c ≤ 'z' then Char.ofNat (c.toNat - 32) else c

/-- Model of Python `str.upper()` on the ASCII range. -/
def pyUpper (s : String) : String := ⟨s.data.map pyUpperChar⟩

/-- ASCII whitespace, as removed by Python `str.strip()`. -/
def isPySpace (c : Char) : Bool :=
  c = ' ' || c = '\t' || c = '\n' || c = '\r' || c = '\x0b' || c = '\x0c'

/-- Model of Python `str.strip()` (ASCII whitespace). -/
def pyStrip (s : String) : String :=
  ⟨((s.data.dropWhile isPySpace).reverse.dropWhile isPySpace).reverse⟩

/-- Model of Python `sep.join(parts)`. -/
def pyJoin (sep : String) : List String → String
  | [] => ""
  | [s] => s
  | s :: rest => s ++ sep ++ pyJoin sep rest

/-- First-occurrence deduplication, the key collapsing performed by a Python
dict comprehension. -/
def firstDedup : List String → List String
  | [] => []
  | x :: xs => x :: (firstDedup xs).filter fun y => decide (y ≠ x)

/-- Lowercase hexadecimal digits, the alphabet `0123456789abcdef` used by
`validate_arguments` for trace ids. -/
def isHexLowerChar (c : Char) : Bool :=
  ('0' ≤ c && c ≤ '9') || ('a' ≤ c && c ≤ 'f')

/-- JSON values, the result type of the external `json.loads`. -/
inductive Json : Type where
  | null : Json
  | bool : Bool → Json
  | num : Int → Json
  | str : String → Json
  | arr : List Json → Json
  | obj : List (String × Json) → Json

/-- Turn input, the parsed command-line arguments of one orchestrator turn
(`parse_arguments` in `orchestrator_utils.py`). -/
structure Args where
  prompt : String
  workflow_id : String
  trace_id : String
  turn_number : Int
  conversation_context : Option String

/-- `validate_arguments` from `orchestrator_utils.py`: checks run in source
order, the first failure aborting the turn (modelled as `Except.error`; in the
source each failure prints to stderr and exits with status 1). -/
def validate_arguments (parse : String → Option Json) (args : Args) :
    Except String Unit :=
  if pyStrip args.prompt = "" then
    .error "--prompt cannot be empty"
  else if pyStrip args.workflow_id = "" then
    .error "--workflow-id cannot be empty"
  else
    let trace_id := pyLower (pyStrip args.trace_id)
    if trace_id.length ≠ 32 then
      .error "--trace-id must be exactly 32 characters"
    else if ¬ trace_id.data.all isHexLowerChar then
      .error "--trace-id must contain only hexadecimal characters"
    else if args.turn_number < 1 then
      .error "--turn-number must be a positive integer >= 1"
    else
      match args.conversation_context with
      | none => .ok ()
      | some ctx =>
        match parse ctx with
        | none => .error "--conversation-context is not valid JSON"
        | some (Json.obj kvs) =>
          match alookup kvs "entry_agent" with
          | none => .error "--conversation-context must contain entry_agent field"
          | some _ =>
            match alookup kvs "turns" with
            | some (Json.arr _) => .ok ()
            | _ => .error "--conversation-context must contain turns array"
        | some _ => .error "--conversation-context must be a JSON object"

/-- The 32-lowercase-hex shape the specification states for trace ids. -/
def TraceIdShape (s : String) : Prop :=
  s.length = 32 ∧ ∀ c ∈ s.data, isHexLowerChar c

instance (s : String) : Decidable (TraceIdShape s) := by
  unfold TraceIdShape; infer_instance

/-! ## Task DAG model (`main_workflow.py`) -/

/-- A task dependency graph: Python `Dict[str, List[str]]` mapping a task id
to the ids it depends on, in insertion order. -/
abbrev Dag : Type := List (String × List String)

/-- The task ids (dict keys) of the graph. -/
def dagKeys (dag : Dag) : List String := dag.map Prod.fst

/-- `dag.get(task, [])`: dependency list of a task, empty for unknown ids. -/
def dagDeps (dag : Dag) (task : String) : List String :=
  (alookup dag task).getD []

/-- Dependency edge: `DagEdge dag a b` holds when `b` appears in the
dependency list of `a`. -/
def DagEdge (dag : Dag) (a b : String) : Prop := b ∈ dagDeps dag a

/-- The graph contains a directed dependency cycle of any length. -/
def HasCycle (dag : Dag) : Prop := ∃ a, Relation.TransGen (DagEdge dag) a a

/-- The graph contains a dependency id that is not a key of the graph. -/
def HasDangling (dag : Dag) : Prop :=
  ∃ p ∈ dag, ∃ d ∈ p.2, d ∉ dagKeys dag

/-- The dangling-dependency scan of `validate_dag`: first (task, dep) pair in
iteration order whose dep is not a key, if any. -/
def findDangling (allTasks : List String) : Dag → Option (String × String)
  | [] => none
  | (t, deps) :: rest =>
    match deps.find? (fun d => ¬ allTasks.contains d) with
    | some d => some (t, d)
    | none => findDangling allTasks rest

mutual

/-- The recursive `has_cycle(task, visited, rec_stack)` of `validate_dag`:
marks `task` visited, pushes it on the recursion stack and scans its
dependencies. Mutable-set state is passed explicitly: the returned list is the
updated `visited`; `none` models fuel exhaustion (proved unreachable for the
fuel supplied by `validate_dag`). -/
def hasCycleVisit (dag : Dag) : Nat → String → List String → List String →
    Option (Bool × List String)
  | 0, _, _, _ => none
  | fuel + 1, task, visited, rstack =>
    hasCycleDeps dag fuel (dagDeps dag task) (task :: visited) (task :: rstack)

/-- The dependency loop inside `has_cycle`: an unvisited dep is explored
recursively; a visited dep on the recursion stack reports a cycle. -/
def hasCycleDeps (dag : Dag) : Nat → List String → List String → List String →
    Option (Bool × List String)
  | _, [], visited, _ => some (false, visited)
  | fuel, d :: ds, visited, rstack =>
    if d ∈ visited then
      if d ∈ rstack then some (true, visited)
      else hasCycleDeps dag fuel ds visited rstack
    else
      match hasCycleVisit dag fuel d visited rstack with
      | none => none
      | some (true, v2) => some (true, v2)
      | some (false, v2) => hasCycleDeps dag fuel ds v2 rstack

end

/-- The cycle-detection driver of `validate_dag`: scan tasks in graph order,
running the DFS from every not-yet-visited task with an empty recursion
stack. -/
def validateCyclesAux (dag : Dag) (fuel : Nat) : List String → List String →
    Except String Unit
  | [], _ => .ok ()
  | t :: ts, visited =>
    if t ∈ visited then validateCyclesAux dag fuel ts visited
    else
      match hasCycleVisit dag fuel t visited [] with
      | none => .error "fuel exhausted"
      | some (true, _) => .error "DAG contains a cycle"
      | some (false, v2) => validateCyclesAux dag fuel ts v2

/-- `validate_dag` from `main_workflow.py`: every dependency id must exist as
a key, then a DFS with a recursion-stack set detects cycles; either violation
raises `ValueError` (modelled as `Except.error`). -/
def validate_dag (dag : Dag) : Except String Unit :=
  match findDangling (dagKeys dag) dag with
  | some _ => .error "task depends on unknown task"
  | none => validateCyclesAux dag (dag.length + 1) (dagKeys dag) []

/-- `get_ready_tasks` from `main_workflow.py`: tasks not yet completed whose
dependency ids are all in the completed set, in graph order. -/
def get_ready_tasks (dag : Dag) (completed : List String) : List String :=
  (dag.filter fun p => decide (p.1 ∉ completed ∧ ∀ d ∈ p.2, d ∈ completed)).map
    Prod.fst

/-- `get_agent_display_name`: the id→name table of the template is empty, so
`names.get(agent_id, agent_id)` returns the id itself. -/
def get_agent_display_name (agent_id : String) : String := agent_id

set_option linter.unusedVariables false in
/-- `build_task_prompt` from `main_workflow.py`: the prompt for a task,
including the results of its completed dependencies in dependency order.
A result entry is the text under the `response` key of the stored response
dict (always present for a successful invocation). -/
def build_task_prompt (task_id original_prompt : String)
    (dependency_results : List (String × String)) : String :=
  if dependency_results = [] then original_prompt
  else
    let context_parts := "Previous task results:" ::
      dependency_results.map fun p =>
        "\n" ++ get_agent_display_name p.1 ++ ":\n" ++ p.2
    let context := pyJoin "\n" context_parts
    context ++ "\n\nOriginal request: " ++ original_prompt

/-- The dependency-results dict built for a task before submission:
`{dep: results[dep] for dep in dag[task] if dep in results}`. -/
def depResults (dag : Dag) (results : List (String × String)) (task : String) :
    List (String × String) :=
  (firstDedup (dagDeps dag task)).filterMap fun d =>
    (alookup results d).map fun r => (d, r)

/-- One dispatched task invocation, with ghost snapshots of the scheduler
state at dispatch time. -/
structure TaskInvocation where
  task : String
  completedBefore : List String
  resultsBefore : List (String × String)
  prompt : String

/-- The wave loop of `main()` in `main_workflow.py`, for runs in which every
agent invocation succeeds (`respond` is the external agent, total here).
Each wave dispatches all ready tasks — prompts are built from the wave-start
results — and, since every invocation succeeds, adds them all to the
completed set and stores their results. An empty ready set with the workflow
incomplete raises; fuel exhaustion is proved unreachable for the fuel
supplied by `workflowMain`. -/
def schedulerLoop (dag : Dag) (respond : String → String → String)
    (original_prompt : String) :
    Nat → List String → List (String × String) → List TaskInvocation →
    Except (String × List TaskInvocation)
      (List TaskInvocation × List String × List (String × String))
  | 0, _, _, log => .error ("fuel exhausted", log)
  | fuel + 1, completed, results, log =>
    if completed.length < dag.length then
      let ready := get_ready_tasks dag completed
      if ready = [] then
        .error ("No tasks ready but workflow incomplete", log)
      else
        let invs := ready.map fun t =>
          { task := t, completedBefore := completed, resultsBefore := results,
            prompt := build_task_prompt t original_prompt
              (depResults dag results t) : TaskInvocation }
        let newResults := results ++
          invs.map fun i => (i.task, respond i.task i.prompt)
        schedulerLoop dag respond original_prompt fuel
          (completed ++ ready) newResults (log ++ invs)
    else
      .ok (log, completed, results)

/-- Outcome of one workflow turn: process exit code, the agent invocations
that were dispatched, and the emitted event types (coarse event model). -/
structure WorkflowRun where
  exitCode : Nat
  invocations : List TaskInvocation
  events : List String

/-- `main()` of `main_workflow.py` for runs in which every agent invocation
succeeds: validate arguments (exit 1, nothing emitted, on failure), reject an
empty task graph, run `validate_dag`, then the wave loop. The graph-structure
event is emitted only after DAG validation succeeds, so an invalid graph
produces a workflow_error event and zero agent invocations. -/
def workflowMain (parse : String → Option Json) (dag : Dag)
    (respond : String → String → String) (args : Args) : WorkflowRun :=
  match validate_arguments parse args with
  | .error _ => { exitCode := 1, invocations := [], events := [] }
  | .ok () =>
    if dag = [] then
      { exitCode := 1, invocations := [], events := ["workflow_error"] }
    else
      match validate_dag dag with
      | .error _ =>
        { exitCode := 1, invocations := [], events := ["workflow_error"] }
      | .ok () =>
        match schedulerLoop dag respond args.prompt (dag.length + 1) [] [] [] with
        | .error (_, log) =>
          { exitCode := 1, invocations := log, events := ["workflow_error"] }
        | .ok (log, _, _) =>
          { exitCode := 0, invocations := log,
            events := "graph_structure" ::
              log.flatMap (fun i => ["node_start:" ++ i.task,
                                     "node_stop:" ++ i.task]) ++
              ["workflow_complete"] }

/-- Correct-dispatch property of one scheduler invocation: the task was not
yet completed, all its dependency ids were completed, and its prompt is the
task prompt built from exactly its dependencies' stored results (all of which
were present). -/
def GoodInvocation (dag : Dag) (orig : String) (i : TaskInvocation) : Prop :=
  i.task ∉ i.completedBefore ∧
  (∀ d ∈ dagDeps dag i.task, d ∈ i.completedBefore) ∧
  i.prompt = build_task_prompt i.task orig
    (depResults dag i.resultsBefore i.task) ∧
  ∀ d ∈ dagDeps dag i.task, alookup i.resultsBefore d ≠ none

/-! ## Graph pattern: routing resolver (`main_graph.py`) -/

/-- Python truthiness of an optional string field: present and non-empty. -/
def pyTruthy : Option String → Bool
  | none => false
  | some s => s ≠ ""

/-- A normalized agent response as seen by `route_to_next_agent`: the raw
text plus the optional structured control fields the agent may have emitted
(absent dict keys are `none`). -/
structure GraphResponse where
  response : String
  route_to : Option String
  classification : Option String

/-- `route_to_next_agent` from `main_graph.py`. The Haiku arbitration call
(`route_with_haiku`, an external LLM invocation that already validates its
answer against the agent set) is abstracted as `haikuResult`; the
classification and static tables are the Kiro customization points
`CLASSIFICATION_ROUTES` and `STATIC_ROUTES`. Returns the next agent id, or
`none` for workflow complete. -/
def route_to_next_agent (useHaikuRouter : Bool) (haikuResult : Option String)
    (classificationRoutes : List (String × String))
    (staticRoutes : List (String × Option String))
    (current_agent : String) (response : GraphResponse) : Option String :=
  let strategies14 : Unit → Option String := fun _ =>
    -- STRATEGY 1: explicit routing via the route_to field, used verbatim
    if pyTruthy response.route_to then response.route_to
    else
      -- STRATEGY 2: classification, lowercased label looked up in the table
      let classTry : Option String :=
        if pyTruthy response.classification then
          match response.classification with
          | some c => alookup classificationRoutes (pyLower c)
          | none => none
        else none
      match classTry with
      | some a => some a
      | none =>
        -- STRATEGY 3: static routing table (value may itself be terminal)
        match alookup staticRoutes current_agent with
        | some nxt => nxt
        -- STRATEGY 4: workflow complete
        | none => none
  -- STRATEGY 0: Haiku routing, active only when enabled by configuration
  if useHaikuRouter then
    match haikuResult with
    | some r => if pyUpper r = "COMPLETE" then none else some r
    | none => strategies14 ()
  else strategies14 ()

/-- A strategy outcome in the specification's ordered-cascade reading:
`none` is fall-through, `some d` is a decision (`d = none` meaning
complete). -/
def strategyCascade : List (Option (Option String)) → Option String
  | [] => none
  | s :: rest =>
    match s with
    | some d => d
    | none => strategyCascade rest

/-- Cascade strategy 0 per the spec: config-gated arbitration; an arbiter
answer decides (COMPLETE ends the turn), no answer falls through. -/
def strategyHaiku (useHaikuRouter : Bool) (haikuResult : Option String) :
    Option (Option String) :=
  if useHaikuRouter then
    match haikuResult with
    | some r => some (if pyUpper r = "COMPLETE" then none else some r)
    | none => none
  else none

/-- Cascade strategy 1 per the spec: explicit next-agent field, verbatim. -/
def strategyExplicit (response : GraphResponse) : Option (Option String) :=
  if pyTruthy response.route_to then some response.route_to else none

/-- Cascade strategy 2 per the spec: case-insensitive classification
lookup; a miss falls through. -/
def strategyClassification (classificationRoutes : List (String × String))
    (response : GraphResponse) : Option (Option String) :=
  if pyTruthy response.classification then
    match response.classification with
    | some c => (alookup classificationRoutes (pyLower c)).map some
    | none => none
  else none

/-- Cascade strategy 3 per the spec: static current-agent table; a hit
decides (possibly deciding completion), a miss falls through. -/
def strategyStatic (staticRoutes : List (String × Option String))
    (current_agent : String) : Option (Option String) :=
  alookup staticRoutes current_agent

/-! ## Swarm pattern (`main_swarm.py`) -/

/-- `_extract_text_from_response` helper: the `text` values collected from
dict items of a content list (`item['text']` for each dict item with a
`text` key; the value itself may be any JSON value). -/
def collectTextItems : List Json → List Json
  | [] => []
  | Json.obj kvs :: rest =>
    (match alookup kvs "text" with
     | some v => [v]
     | none => []) ++ collectTextItems rest
  | _ :: rest => collectTextItems rest

/-- `'\n'.join(text_parts)`: succeeds only when every collected part is a
string; a non-string part raises `TypeError` in the source (`none` here). -/
def allStrings : List Json → Option (List String)
  | [] => some []
  | Json.str s :: rest => (allStrings rest).map (s :: ·)
  | _ :: _ => none

/-- The third branch of `_extract_text_from_response`: a string-valued
`response` field is returned directly; anything else falls out of the `try`
and the input text is returned. -/
def etfrBranch3 (response_text : String) (kvs : List (String × Json)) :
    String :=
  match alookup kvs "response" with
  | some (Json.str s) => s
  | _ => response_text

/-- The second branch of `_extract_text_from_response`: a dict-valued
`response` whose `content` holds a list of text items. Control flow mirrors
the source: a non-empty `text_parts` commits to joining (a `TypeError` from
a non-string part is caught by the enclosing handler, yielding the input
text); iterating a non-iterable `content` value raises `TypeError`
(likewise the input text); iterating a string or a dict yields no dict
items and falls through to the third branch. -/
def etfrBranch2 (response_text : String) (kvs : List (String × Json)) :
    String :=
  match alookup kvs "response" with
  | some (Json.obj ikvs) =>
    match alookup ikvs "content" with
    | some (Json.arr items) =>
      let parts := collectTextItems items
      if parts.isEmpty then etfrBranch3 response_text kvs
      else
        match allStrings parts with
        | some ss => pyJoin "\n" ss
        | none => response_text
    | some (Json.str _) => etfrBranch3 response_text kvs
    | some (Json.obj _) => etfrBranch3 response_text kvs
    | some _ => response_text
    | none => etfrBranch3 response_text kvs
  | _ => etfrBranch3 response_text kvs

/-- The body of `_extract_text_from_response` after a successful
`json.loads`: the first branch handles a top-level `content` list of text
items, falling through to `etfrBranch2` / `etfrBranch3`. -/
def extract_text_from_json (response_text : String) : Json → String
  | Json.obj kvs =>
    match alookup kvs "content" with
    | some (Json.arr items) =>
      let parts := collectTextItems items
      if parts.isEmpty then etfrBranch2 response_text kvs
      else
        match allStrings parts with
        | some ss => pyJoin "\n" ss
        | none => response_text
    | _ => etfrBranch2 response_text kvs
  | _ => response_text

/-- `_extract_text_from_response` from `main_swarm.py`: extract the actual
text from a possibly nested Bedrock response; on parse failure or an
unrecognized shape, return the input unchanged. Total: no input raises. -/
def extract_text_from_response (parse : String → Option Json) (s : String) :
    String :=
  match parse s with
  | none => s
  | some j => extract_text_from_json s j

/-- Recognized shape 1: a JSON object with a `content` list containing at
least one text item. -/
def Shape1 (j : Json) : Prop :=
  ∃ kvs items, j = Json.obj kvs ∧
    alookup kvs "content" = some (Json.arr items) ∧ collectTextItems items ≠ []

/-- Recognized shape 2: a JSON object whose `response` wraps an object with
such a `content` list. -/
def Shape2 (j : Json) : Prop :=
  ∃ kvs ikvs items, j = Json.obj kvs ∧
    alookup kvs "response" = some (Json.obj ikvs) ∧
    alookup ikvs "content" = some (Json.arr items) ∧ collectTextItems items ≠ []

/-- Recognized shape 3: a JSON object with a string-valued `response`
field. -/
def Shape3 (j : Json) : Prop :=
  ∃ kvs s, j = Json.obj kvs ∧ alookup kvs "response" = some (Json.str s)

/-- A handoff extracted from an agent response (`extract_handoff_from_response`
result): sequential, or parallel fan-out with an optional convergence
target. -/
inductive Handoff where
  | single (target : String)
  | parallel (targets : List String) (converge_at : Option String)
deriving DecidableEq

/-- Result of processing a structured handoff declaration: either a handoff,
or fall-through to the remaining extraction strategies carrying the agent's
(possibly invalid) suggestion as a hint. -/
inductive DeclOutcome where
  | handoff (h : Handoff)
  | fallthrough (suggestion : Option String)
deriving DecidableEq

/-- The parsed `handoff_to` field value: a JSON string or array. -/
inductive HandoffField where
  | str (s : String)
  | list (l : List String)
deriving DecidableEq

/-- The structured-declaration step of `extract_handoff_from_response`
(`main_swarm.py` lines 248–274), applied to a parsed `handoff_to` /
`converge_at` pair: a list of more than one target is a parallel handoff
with unknown targets filtered out (warning logged) and a declared
convergence target dropped with a warning when unknown; a bare string or a
one-element list is a single handoff; an unknown single target (or a
parallel declaration with no valid target) falls through to the later
extraction strategies with a warning, never failing the turn. Returns the
outcome together with the logged warnings. -/
def process_handoff_decl (available : List String) (handoff_to : HandoffField)
    (converge_at : Option String) : DeclOutcome × List String :=
  let singleFrom : String → DeclOutcome × List String := fun target =>
    if target ∈ available then (.handoff (.single target), [])
    else (.fallthrough (some target),
      ["Handoff target " ++ target ++ " not in available agents"])
  match handoff_to with
  | .str s => if s = "" then (.fallthrough none, []) else singleFrom s
  | .list [] => (.fallthrough none, [])
  | .list (t :: ts) =>
    if ts = [] then singleFrom t
    else
      let all := t :: ts
      let valid := all.filter fun x => decide (x ∈ available)
      let invalid := all.filter fun x => decide (x ∉ available)
      let warns1 : List String :=
        if invalid = [] then []
        else ["Some parallel targets not available"]
      if valid = [] then
        let res := singleFrom t
        (res.1, warns1 ++ res.2)
      else
        match converge_at with
        | some c =>
          if c ≠ "" ∧ c ∉ available then
            (.handoff (.parallel valid none),
              warns1 ++ ["Convergence target " ++ c ++ " not available"])
          else (.handoff (.parallel valid (some c)), warns1)
        | none => (.handoff (.parallel valid none), warns1)

/-- A member result collected by `invoke_agents_parallel`: a success stores
the response text, a failure stores the error dict `{'error': e,
'response': ''}`. -/
inductive AgentResult where
  | ok (text : String)
  | err (msg : String)
deriving DecidableEq

/-- One agent invocation performed by the swarm loop, tagged when it is a
parallel fan-out member. -/
structure SwarmInvocation where
  isParallelMember : Bool
  agent : String
  prompt : String
deriving DecidableEq

/-- `max_handoffs = 20` in `main()` of `main_swarm.py`. -/
def max_handoffs : Nat := 20

/-- The handoff prompt of the sequential branch of `main()`:
`f"Handoff from {agent_name}:\n{prev_response}\n\nOriginal request:
{args.prompt}"`. -/
def handoff_prompt (agent_name prev_response original_prompt : String) :
    String :=
  "Handoff from " ++ agent_name ++ ":\n" ++ prev_response ++
    "\n\nOriginal request: " ++ original_prompt

/-- The per-member prompt of the parallel branch of `main()`:
`f"Parallel analysis from {agent_name}:\n{prev_response}\n\nOriginal
request: {args.prompt}"`. -/
def parallel_member_prompt (agent_name prev_response original_prompt :
    String) : String :=
  "Parallel analysis from " ++ agent_name ++ ":\n" ++ prev_response ++
    "\n\nOriginal request: " ++ original_prompt

/-- `build_convergence_prompt` from `main_swarm.py`: one section per
parallel member in collection order — the member's normalized response
text, or its error — followed by the original request and the synthesis
instructions. -/
def build_convergence_prompt (parse : String → Option Json)
    (parallel_results : List (String × AgentResult))
    (original_prompt : String) : String :=
  let sections := parallel_results.map fun p =>
    match p.2 with
    | .err e =>
      if e = "" then
        "## Results from " ++ get_agent_display_name p.1 ++ "\n\n" ++
          extract_text_from_response parse ""
      else
        "## Results from " ++ get_agent_display_name p.1 ++
          "\n\n[ERROR: " ++ e ++ "]"
    | .ok r =>
      "## Results from " ++ get_agent_display_name p.1 ++ "\n\n" ++
        extract_text_from_response parse r
  "You are receiving consolidated results from parallel specialist " ++
    "analyses.\n\n" ++ pyJoin "\n" sections ++
    "\n\n## Original Request\n" ++ original_prompt ++
    "\n\n## Your Task\nSynthesize the above specialist findings into a " ++
    "comprehensive assessment with a clear recommendation.\nDo NOT hand " ++
    "off to the specialists listed above - you already have all their " ++
    "findings.\nProvide the final consolidated analysis and recommendation."

set_option linter.unusedVariables false in
/-- The swarm driver loop of `main()` in `main_swarm.py`
(`while current_agent is not None and len(agents_invoked) < max_handoffs`).
`extract` abstracts `extract_handoff_from_response` applied to the raw
response text; `respond` is the external agent invoker (an `error` models
an invocation exception, which aborts the turn). Returns the
`agents_invoked` log (with the prompt each invocation received), the final
`last_response`, and the failing agent with its error when an invocation
raised. Parallel member failures are collected as error results, never
aborting the turn; members are appended to `agents_invoked` after the
fan-out, and collection order is modelled as target order (the source
collects in completion order, which is unspecified). -/
def swarmLoop (parse : String → Option Json)
    (extract : String → Option Handoff)
    (respond : String → String → Except String String)
    (original_prompt : String) (current : String) (prompt : String)
    (invoked : List SwarmInvocation) (lastResponse : Option AgentResult) :
    List SwarmInvocation × Option AgentResult × Option (String × String) :=
  if h : invoked.length < max_handoffs then
    match respond current prompt with
    | .error e => (invoked, lastResponse, some (current, e))
    | .ok raw =>
      let invoked2 := invoked ++ [⟨false, current, prompt⟩]
      let lastR := some (AgentResult.ok raw)
      match extract raw with
      | none => (invoked2, lastR, none)
      | some (.single target) =>
        swarmLoop parse extract respond original_prompt target
          (handoff_prompt (get_agent_display_name current) raw
            original_prompt)
          invoked2 lastR
      | some (.parallel targets conv) =>
        let memberPrompt :=
          parallel_member_prompt (get_agent_display_name current) raw
            original_prompt
        let results := targets.map fun t =>
          (t, match respond t memberPrompt with
              | .ok r => AgentResult.ok r
              | .error e => AgentResult.err e)
        let invoked3 := invoked2 ++
          targets.map fun t => (⟨true, t, memberPrompt⟩ : SwarmInvocation)
        match conv with
        | some c =>
          if c = "" then
            (invoked3,
              (match results.getLast? with
               | some p => some p.2
               | none => lastR), none)
          else
            swarmLoop parse extract respond original_prompt c
              (build_convergence_prompt parse results original_prompt)
              invoked3 lastR
        | none =>
          (invoked3,
            (match results.getLast? with
             | some p => some p.2
             | none => lastR), none)
  else (invoked, lastResponse, none)
termination_by max_handoffs - invoked.length
decreasing_by
  all_goals simp_all [max_handoffs]
  all_goals omega

/-- Outcome of one swarm turn: exit code, the `agents_invoked` log, the
terminal event emitted (with its error message where applicable), and the
final response. -/
structure SwarmRun where
  exitCode : Nat
  invoked : List SwarmInvocation
  events : List String
  finalResponse : Option AgentResult

/-- The post-loop part of `main()` in `main_swarm.py`: an invocation
exception emits a workflow_error naming the agent and exits 1; otherwise
reaching the handoff ceiling emits the max-handoffs workflow_error and
exits 1; otherwise the turn completes with exit 0. -/
def swarmMain (parse : String → Option Json)
    (extract : String → Option Handoff)
    (respond : String → String → Except String String)
    (original_prompt entry_agent : String) : SwarmRun :=
  match swarmLoop parse extract respond original_prompt entry_agent
      original_prompt [] none with
  | (log, lastR, some (agent, e)) =>
    { exitCode := 1, invoked := log,
      events := ["workflow_error: Agent " ++ agent ++ " failed: " ++ e],
      finalResponse := lastR }
  | (log, lastR, none) =>
    if log.length ≥ max_handoffs then
      { exitCode := 1, invoked := log,
        events :=
          ["workflow_error: Maximum handoffs (20) exceeded - possible infinite loop"],
        finalResponse := lastR }
    else
      { exitCode := 0, invoked := log, events := ["workflow_complete"],
        finalResponse := lastR }

/-! ## Argument validation (claim C6) -/

/-- An accepted turn has a trace id whose *normalized* form
(`strip().lower()`) is 32 lowercase hex characters. -/
theorem validate_arguments_ok_trace (parse : String → Option Json)
    (args : Args) (h : validate_arguments parse args = .ok ()) :
    TraceIdShape (pyLower (pyStrip args.trace_id)) := by
  simp only [validate_arguments] at h
  split_ifs at h with h1 h2 h3 h4 h5
  refine ⟨by omega, fun c hc => ?_⟩
  have := List.all_eq_true.mp h4 c hc
  simpa using this

/-- C6 counterexample: the turn input with trace id
`A1B2C3D4E5F6789012345678901234AB` (32 *uppercase* hex characters, hence
not of the 32-lowercase-hex shape) is accepted by `validate_arguments`,
because the source normalizes with `strip().lower()` before checking; so
"every turn input whose trace id is not exactly 32 lowercase hexadecimal
characters is rejected" is false of the code. -/
theorem c6_counterexample :
    validate_arguments (fun _ => none)
      { prompt := "p", workflow_id := "wf",
        trace_id := "A1B2C3D4E5F6789012345678901234AB",
        turn_number := 1, conversation_context := none } = .ok () ∧
    ¬ TraceIdShape "A1B2C3D4E5F6789012345678901234AB" := by
  refine ⟨rfl, ?_⟩
  decide

/-- C6 amended: acceptance is judged on the normalized trace id
(`strip().lower()`): a turn whose trace id does not normalize to 32
(lowercase) hex characters is rejected by `validate_arguments` before any
agent is invoked — the workflow driver then exits 1 with zero agent
invocations and zero emitted events — and conversely every accepted turn
has a normalized trace id of exactly that shape
(`validate_arguments_ok_trace`). -/
theorem c6_amended (parse : String → Option Json) (dag : Dag)
    (respond : String → String → String) (args : Args)
    (h : ¬ TraceIdShape (pyLower (pyStrip args.trace_id))) :
    (∃ msg, validate_arguments parse args = .error msg) ∧
    workflowMain parse dag respond args =
      { exitCode := 1, invocations := [], events := [] } := by
  have herr : ∃ msg, validate_arguments parse args = .error msg := by
    cases hv : validate_arguments parse args with
    | ok u =>
      cases u
      exact absurd (validate_arguments_ok_trace parse args hv) h
    | error msg => exact ⟨msg, rfl⟩
  obtain ⟨msg, hmsg⟩ := herr
  refine ⟨⟨msg, hmsg⟩, ?_⟩
  unfold workflowMain
  rw [hmsg]

/-- Witness for `c6_amended` at a concrete malformed trace id. -/
theorem c6_amended_witness :
    ¬ TraceIdShape (pyLower (pyStrip "zzz")) ∧
    workflowMain (fun _ => none) [] (fun _ _ => "")
      { prompt := "p", workflow_id := "wf", trace_id := "zzz",
        turn_number := 1, conversation_context := none } =
      { exitCode := 1, invocations := [], events := [] } :=
  ⟨by decide,
   (c6_amended (fun _ => none) [] (fun _ _ => "")
     { prompt := "p", workflow_id := "wf", trace_id := "zzz",
       turn_number := 1, conversation_context := none } (by decide)).2⟩

/-! ## Graph routing cascade (claims C4, C7) -/

/-- `route_to_next_agent` is exactly the ordered first-match cascade of its
four strategies followed by the completion default. -/
theorem route_eq_cascade (u : Bool) (hr : Option String)
    (cr : List (String × String)) (sr : List (String × Option String))
    (ca : String) (resp : GraphResponse) :
    route_to_next_agent u hr cr sr ca resp =
      strategyCascade [strategyHaiku u hr, strategyExplicit resp,
        strategyClassification cr resp, strategyStatic sr ca] := by
  have hst : (match alookup sr ca with
      | some nxt => nxt
      | none => none) = strategyCascade [strategyStatic sr ca] := by
    unfold strategyStatic
    cases alookup sr ca <;> rfl
  unfold route_to_next_agent strategyHaiku strategyExplicit
    strategyClassification
  cases u <;> cases hr <;>
    cases hrt : pyTruthy resp.route_to <;>
      rcases hcl : resp.classification with _ | c <;>
        simp only [hrt, hcl, if_true, if_false, Bool.false_eq_true,
          ite_true, ite_false, strategyCascade, pyTruthy] <;>
        first
        | rfl
        | exact hst
        | exact hst.symm
        | (cases htc : decide (c ≠ "") <;>
            simp only [htc, ite_true, ite_false, Bool.false_eq_true,
              if_true, if_false, strategyCascade] <;>
            first
            | rfl
            | exact hst
            | exact hst.symm
            | (cases hal : alookup cr (pyLower c) <;>
                simp only [hal, strategyCascade] <;> rfl))

set_option linter.unusedVariables false in
/-- C4: the routing resolver evaluates its strategies strictly in priority
order with first match winning — arbitration (when enabled), then the
explicit `route_to` field verbatim, then classification mapping, then the
static current-agent table, then completion (`route_eq_cascade`); in
particular, when arbitration and the explicit field fall through and the
response carries a classification that hits the table, the classification
mapping decides even though the static table also has an entry for the
current agent. -/
theorem c4_cascade_priority (u : Bool) (hr : Option String)
    (cr : List (String × String)) (sr : List (String × Option String))
    (ca : String) (resp : GraphResponse) (a : String) (st : Option String)
    (h0 : strategyHaiku u hr = none)
    (h1 : strategyExplicit resp = none)
    (h2 : strategyClassification cr resp = some (some a))
    (h3 : strategyStatic sr ca = some st) :
    route_to_next_agent u hr cr sr ca resp =
      strategyCascade [strategyHaiku u hr, strategyExplicit resp,
        strategyClassification cr resp, strategyStatic sr ca] ∧
    route_to_next_agent u hr cr sr ca resp = some a := by
  have hc := route_eq_cascade u hr cr sr ca resp
  refine ⟨hc, ?_⟩
  rw [hc]
  simp [strategyCascade, h0, h1, h2]

/-- Witness for `c4_cascade_priority`: response with both a classification
(`"Billing"`, hitting the table) and a static-route entry for the current
agent; the classification mapping decides. -/
theorem c4_cascade_priority_witness :
    strategyClassification [("billing", "billing_handler")]
      { response := "r", route_to := none,
        classification := some "Billing" } = some (some "billing_handler") ∧
    strategyStatic [("triage", some "static_next")] "triage" =
      some (some "static_next") ∧
    route_to_next_agent false none [("billing", "billing_handler")]
      [("triage", some "static_next")] "triage"
      { response := "r", route_to := none,
        classification := some "Billing" } = some "billing_handler" := by
  refine ⟨by decide, by decide, ?_⟩
  exact (c4_cascade_priority false none [("billing", "billing_handler")]
    [("triage", some "static_next")] "triage"
    { response := "r", route_to := none, classification := some "Billing" }
    "billing_handler" (some "static_next") rfl rfl (by decide)
    (by decide)).2

/-- C7: when the earlier strategies fall through and the response carries a
classification label, the resolver looks up the lowercased label in the
classification table — returning the mapped agent on a match and falling
through to the static table / completion on a miss — and the decision is
insensitive to the label's case: any recasing of the label with the same
lowercase form routes identically. -/
theorem c7_classification_case_insensitive (u : Bool) (hr : Option String)
    (cr : List (String × String)) (sr : List (String × Option String))
    (ca : String) (resp : GraphResponse) (label : String)
    (h0 : strategyHaiku u hr = none)
    (h1 : pyTruthy resp.route_to = false)
    (h2 : resp.classification = some label) (h3 : label ≠ "") :
    route_to_next_agent u hr cr sr ca resp =
      (match alookup cr (pyLower label) with
       | some a => some a
       | none =>
         match alookup sr ca with
         | some nxt => nxt
         | none => none) ∧
    ∀ label2, pyLower label2 = pyLower label →
      route_to_next_agent u hr cr sr ca
        { resp with classification := some label2 } =
        route_to_next_agent u hr cr sr ca resp := by
  have hmain : ∀ lab, lab ≠ "" →
      route_to_next_agent u hr cr sr ca
        { resp with classification := some lab } =
      (match alookup cr (pyLower lab) with
       | some a => some a
       | none =>
         match alookup sr ca with
         | some nxt => nxt
         | none => none) := by
    intro lab hlab
    rw [route_eq_cascade]
    have hh : strategyHaiku u hr = none := h0
    have he : strategyExplicit { resp with classification := some lab } =
        none := by
      unfold strategyExplicit
      simp [h1]
    have hcl : strategyClassification cr
        { resp with classification := some lab } =
        (alookup cr (pyLower lab)).map some := by
      unfold strategyClassification
      simp [pyTruthy, hlab]
    rw [show (strategyCascade [strategyHaiku u hr,
        strategyExplicit { resp with classification := some lab },
        strategyClassification cr { resp with classification := some lab },
        strategyStatic sr ca]) = _ from rfl]
    simp only [hh, hcl, he, strategyCascade]
    cases alookup cr (pyLower lab) <;>
      simp [strategyStatic]
  have hresp : ({ resp with classification := some label } : GraphResponse)
      = resp := by
    cases resp
    simp_all
  constructor
  · rw [← hresp]
    exact hmain label h3
  · intro label2 hl2
    have hlen : label2.data.length = label.data.length := by
      have := congrArg (fun s => s.data.length) hl2
      simpa [pyLower] using this
    have h32 : label2 ≠ "" := by
      intro hemp
      rw [hemp] at hlen
      apply h3
      have hld : label.data = [] :=
        List.length_eq_zero.mp (by simpa using hlen.symm)
      cases label with
      | mk d =>
        simp only at hld
        rw [hld]
    rw [hmain label2 h32, ← hresp, hmain label h3, hl2]

/-- Witness for `c7_classification_case_insensitive`: the spec's example —
current agent `triage`, classification `billing`, table
`billing ↦ billing_handler` — decides `Continue(billing_handler)`. -/
theorem c7_classification_witness :
    route_to_next_agent false none [("billing", "billing_handler")] []
      "triage"
      { response := "r", route_to := none,
        classification := some "billing" } = some "billing_handler" := by
  have h := c7_classification_case_insensitive false none
    [("billing", "billing_handler")] [] "triage"
    { response := "r", route_to := none, classification := some "billing" }
    "billing" rfl rfl rfl (by decide)
  rw [h.1]
  decide

/-! ## Swarm handoff extraction (claim C5) -/

/-- C5: for a parallel handoff declaration with more than one target,
unknown targets are filtered out — with a logged warning — while valid
targets are preserved in order, and a declared (non-empty) convergence
target not in the known agent set is dropped with its own warning; when no
valid target remains, extraction falls through to the single-handoff path
with a warning instead of failing the turn. -/
theorem c5_parallel_filtering (available : List String) (t : String)
    (ts : List String) (conv : Option String) (hts : ts ≠ []) :
    (((t :: ts).filter fun x => decide (x ∈ available)) ≠ [] →
      process_handoff_decl available (.list (t :: ts)) conv =
        (.handoff (.parallel ((t :: ts).filter fun x => decide (x ∈ available))
          (match conv with
           | some c => if c ≠ "" ∧ c ∉ available then none else some c
           | none => none)),
         (if ((t :: ts).filter fun x => decide (x ∉ available)) = [] then []
          else ["Some parallel targets not available"]) ++
         (match conv with
          | some c =>
            if c ≠ "" ∧ c ∉ available then
              ["Convergence target " ++ c ++ " not available"]
            else []
          | none => []))) ∧
    (((t :: ts).filter fun x => decide (x ∈ available)) = [] →
      process_handoff_decl available (.list (t :: ts)) conv =
        (.fallthrough (some t),
         ["Some parallel targets not available",
          "Handoff target " ++ t ++ " not in available agents"])) := by
  constructor
  · intro hvalid
    unfold process_handoff_decl
    dsimp only
    rw [if_neg hts]
    rw [if_neg hvalid]
    rcases conv with _ | c
    · simp
    · dsimp only
      by_cases hc : c ≠ "" ∧ c ∉ available
      · simp [hc]
      · simp only [if_neg hc]
        simp
  · intro hvalid
    have htmem : t ∉ available := by
      intro hmem
      have : t ∈ (t :: ts).filter fun x => decide (x ∈ available) := by
        simp [List.mem_filter, hmem]
      rw [hvalid] at this
      exact absurd this (List.not_mem_nil t)
    have hinv : ((t :: ts).filter fun x => decide (x ∉ available)) ≠ [] := by
      intro hnil
      have : t ∈ (t :: ts).filter fun x => decide (x ∉ available) := by
        simp [List.mem_filter, htmem]
      rw [hnil] at this
      exact absurd this (List.not_mem_nil t)
    unfold process_handoff_decl
    dsimp only
    rw [if_neg hts]
    rw [if_pos hvalid, if_neg hinv, if_neg htmem]
    rfl

/-- Witness for `c5_parallel_filtering`: targets `["a","b","x"]` with `x`
unknown yield a parallel handoff with targets exactly `["a","b"]` and a
logged warning. -/
theorem c5_parallel_filtering_witness :
    process_handoff_decl ["a", "b", "risk"] (.list ["a", "b", "x"])
      (some "risk") =
      (.handoff (.parallel ["a", "b"] (some "risk")),
        ["Some parallel targets not available"]) := by
  have h := (c5_parallel_filtering ["a", "b", "risk"] "a" ["b", "x"]
    (some "risk") (by decide)).1 (by decide)
  rw [h]
  decide

/-! ## Response normalizer (claim C10) -/

/-- C10: on any input that does not parse as a JSON object of one of the
recognized nested shapes — a `content` list with text items (`Shape1`), a
`response` wrapping such a list (`Shape2`), or a string-valued `response`
field (`Shape3`) — `_extract_text_from_response` returns its input string
unchanged. The function is total: no input raises (parse failures and the
source's caught `TypeError` paths all land on the identity). -/
theorem c10_normalizer_identity (parse : String → Option Json) (s : String)
    (h : ∀ j, parse s = some j → ¬ (Shape1 j ∨ Shape2 j ∨ Shape3 j)) :
    extract_text_from_response parse s = s := by
  unfold extract_text_from_response
  cases hp : parse s with
  | none => rfl
  | some j =>
    have hj := h j hp
    have h1 : ¬ Shape1 j := fun hx => hj (Or.inl hx)
    have h2 : ¬ Shape2 j := fun hx => hj (Or.inr (Or.inl hx))
    have h3 : ¬ Shape3 j := fun hx => hj (Or.inr (Or.inr hx))
    cases j with
    | null => rfl
    | bool b => rfl
    | num n => rfl
    | str s2 => rfl
    | arr xs => rfl
    | obj kvs =>
      have hb3 : etfrBranch3 s kvs = s := by
        unfold etfrBranch3
        cases hr : alookup kvs "response" with
        | none => rfl
        | some v =>
          cases v with
          | str s2 => exact absurd ⟨kvs, s2, rfl, hr⟩ h3
          | null => rfl
          | bool b => rfl
          | num n => rfl
          | arr xs => rfl
          | obj ikvs => rfl
      have hb2 : etfrBranch2 s kvs = s := by
        unfold etfrBranch2
        cases hr : alookup kvs "response" with
        | none => exact hb3
        | some v =>
          cases v with
          | obj ikvs =>
            dsimp only
            cases hic : alookup ikvs "content" with
            | none => exact hb3
            | some c =>
              cases c with
              | arr items =>
                have hemp : (collectTextItems items).isEmpty = true := by
                  by_contra hne
                  refine h2 ⟨kvs, ikvs, items, rfl, hr, hic, fun hnil => ?_⟩
                  exact hne (by simp [hnil])
                dsimp only
                rw [hemp]
                exact hb3
              | null => rfl
              | bool b => rfl
              | num n => rfl
              | str s2 => exact hb3
              | obj okvs => exact hb3
          | null => exact hb3
          | bool b => exact hb3
          | num n => exact hb3
          | str s2 => exact hb3
          | arr xs => exact hb3
      show extract_text_from_json s (Json.obj kvs) = s
      unfold extract_text_from_json
      dsimp only
      split
      · rename_i items heq
        have hemp : (collectTextItems items).isEmpty = true := by
          by_contra hne
          refine h1 ⟨kvs, items, rfl, heq, fun hnil => ?_⟩
          exact hne (by simp [hnil])
        rw [hemp]
        exact hb2
      · exact hb2

/-- Witness for `c10_normalizer_identity` at a non-JSON input. -/
theorem c10_normalizer_identity_witness :
    extract_text_from_response (fun _ => none) "plain text" = "plain text" :=
  c10_normalizer_identity (fun _ => none) "plain text"
    (fun _ hj => Option.noConfusion hj)

/-! ## Swarm prompt round-trip (claim C8) and fan-out final response
(claim C9) -/

theorem data_append (s t : String) : (s ++ t).data = s.data ++ t.data := rfl

theorem infix_append_right {α : Type} {l l2 : List α} (l1 : List α)
    (h : l <:+: l2) : l <:+: l1 ++ l2 := by
  obtain ⟨pre, post, hp⟩ := h
  exact ⟨l1 ++ pre, post, by rw [← hp]; simp⟩

theorem infix_append_left {α : Type} {l l2 : List α} (l3 : List α)
    (h : l <:+: l2) : l <:+: l2 ++ l3 := by
  obtain ⟨pre, post, hp⟩ := h
  exact ⟨pre, post ++ l3, by rw [← hp]; simp⟩

theorem infix_str_right (s t : String) {l : List Char} (h : l <:+: t.data) :
    l <:+: (s ++ t).data := by
  rw [data_append]
  exact infix_append_right _ h

theorem infix_str_left (s t : String) {l : List Char} (h : l <:+: s.data) :
    l <:+: (s ++ t).data := by
  rw [data_append]
  exact infix_append_left _ h

/-- A member of a joined list appears verbatim in the join. -/
theorem mem_pyJoin_infix (sep : String) (l : List String) (s : String)
    (h : s ∈ l) : s.data <:+: (pyJoin sep l).data := by
  induction l with
  | nil => cases h
  | cons x rest ih =>
    cases rest with
    | nil =>
      have hx : s = x := by simpa using h
      subst hx
      exact List.infix_refl s.data
    | cons y rest2 =>
      rcases List.mem_cons.mp h with hx | hmem
      · subst hx
        exact ⟨[], (sep ++ pyJoin sep (y :: rest2)).data, by
          simp [pyJoin, data_append]⟩
      · have := ih hmem
        have h2 : s.data <:+: (x ++ sep).data ++
            (pyJoin sep (y :: rest2)).data := infix_append_right _ this
        simpa [pyJoin, data_append, List.append_assoc] using h2

set_option maxRecDepth 8000 in
/-- C8 counterexample: a concrete swarm turn in which agent `a` responds
`XQZV` declaring a parallel handoff to `b`,`c` with convergence at `d`.
The prompt built for the convergence agent `d` is
`build_convergence_prompt` over the members' results only: it does not
contain the declaring agent's response text `XQZV`, refuting "the prompt
built for the next agent (single handoff, parallel fan-out member, or
convergence agent) contains the original response text verbatim". -/
theorem c8_counterexample :
    (swarmMain (fun _ => none)
      (fun r => if r = "XQZV" then
          some (.parallel ["b", "c"] (some "d")) else none)
      (fun a _ => if a = "a" then .ok "XQZV" else if a = "b" then .ok "RB"
        else if a = "c" then .ok "RC" else .ok "RD")
      "orig" "a").invoked =
      [⟨false, "a", "orig"⟩,
       ⟨true, "b", parallel_member_prompt "a" "XQZV" "orig"⟩,
       ⟨true, "c", parallel_member_prompt "a" "XQZV" "orig"⟩,
       ⟨false, "d", build_convergence_prompt (fun _ => none)
         [("b", .ok "RB"), ("c", .ok "RC")] "orig"⟩] ∧
    ¬ ("XQZV".data <:+: (build_convergence_prompt (fun _ => none)
        [("b", .ok "RB"), ("c", .ok "RC")] "orig").data) := by
  constructor
  · simp [swarmMain, swarmLoop, max_handoffs, get_agent_display_name]
  · decide

/-- C8 amended: the single-handoff prompt and every parallel fan-out member
prompt contain the declaring agent's response text verbatim; the
convergence prompt contains each member's *normalized* response text
verbatim (but not the declaring agent's response). -/
theorem c8_amended (name raw orig : String)
    (parse : String → Option Json)
    (results : List (String × AgentResult)) (agent r : String)
    (hm : (agent, AgentResult.ok r) ∈ results) :
    raw.data <:+: (handoff_prompt name raw orig).data ∧
    raw.data <:+: (parallel_member_prompt name raw orig).data ∧
    (extract_text_from_response parse r).data <:+:
      (build_convergence_prompt parse results orig).data := by
  refine ⟨⟨("Handoff from " ++ name ++ ":\n").data,
      ("\n\nOriginal request: " ++ orig).data, by
        simp [handoff_prompt, data_append, List.append_assoc]⟩,
    ⟨("Parallel analysis from " ++ name ++ ":\n").data,
      ("\n\nOriginal request: " ++ orig).data, by
        simp [parallel_member_prompt, data_append, List.append_assoc]⟩, ?_⟩
  have hsec : ("## Results from " ++ get_agent_display_name agent ++
      "\n\n" ++ extract_text_from_response parse r) ∈
      results.map fun p =>
        match p.2 with
        | .err e =>
          if e = "" then
            "## Results from " ++ get_agent_display_name p.1 ++ "\n\n" ++
              extract_text_from_response parse ""
          else
            "## Results from " ++ get_agent_display_name p.1 ++
              "\n\n[ERROR: " ++ e ++ "]"
        | .ok r2 =>
          "## Results from " ++ get_agent_display_name p.1 ++ "\n\n" ++
            extract_text_from_response parse r2 := by
    refine List.mem_map.mpr ⟨(agent, AgentResult.ok r), hm, rfl⟩
  have hjoin := mem_pyJoin_infix "\n" _ _ hsec
  have hin : (extract_text_from_response parse r).data <:+:
      ("## Results from " ++ get_agent_display_name agent ++ "\n\n" ++
        extract_text_from_response parse r).data :=
    ⟨("## Results from " ++ get_agent_display_name agent ++ "\n\n").data,
      [], by simp [data_append, List.append_assoc]⟩
  have hmid := hin.trans hjoin
  refine hmid.trans ?_
  unfold build_convergence_prompt
  dsimp only
  repeat
    first
    | exact infix_str_right _ _ (List.infix_refl _)
    | apply infix_str_left

/-- Witness for `c8_amended` at a concrete member result. -/
theorem c8_amended_witness :
    "RAW".data <:+: (handoff_prompt "a" "RAW" "orig").data ∧
    "RAW".data <:+: (parallel_member_prompt "a" "RAW" "orig").data ∧
    (extract_text_from_response (fun _ => none) "RB").data <:+:
      (build_convergence_prompt (fun _ => none)
        [("b", AgentResult.ok "RB")] "orig").data :=
  c8_amended "a" "RAW" "orig" (fun _ => none)
    [("b", AgentResult.ok "RB")] "b" "RB" (by simp)

/-- C9 counterexample: a parallel handoff with no convergence target whose
members are collected as `[("b", ok RB), ("c", error boom)]`: the turn's
final response is the *last collected* member result — the error entry for
`c` — not the last *successfully* collected result `ok RB`; the claim's
"last successfully collected member result" fails on the code. -/
theorem c9_counterexample :
    (swarmMain (fun _ => none)
      (fun r => if r = "RA" then some (.parallel ["b", "c"] none) else none)
      (fun a _ => if a = "a" then .ok "RA" else if a = "b" then .ok "RB"
        else .error "boom")
      "orig" "a").finalResponse = some (AgentResult.err "boom") ∧
    (swarmMain (fun _ => none)
      (fun r => if r = "RA" then some (.parallel ["b", "c"] none) else none)
      (fun a _ => if a = "a" then .ok "RA" else if a = "b" then .ok "RB"
        else .error "boom")
      "orig" "a").exitCode = 0 ∧
    AgentResult.err "boom" ≠ AgentResult.ok "RB" := by
  refine ⟨?_, ?_, by decide⟩ <;>
    simp [swarmMain, swarmLoop, max_handoffs]

/-- C9 amended: for a parallel handoff with no declared convergence target,
the turn ends right after fan-out collection and the final response is the
*last collected* member result in collection order, whether that member
succeeded or failed. -/
theorem c9_amended (parse : String → Option Json)
    (extract : String → Option Handoff)
    (respond : String → String → Except String String)
    (orig current prompt : String) (invoked : List SwarmInvocation)
    (lastR : Option AgentResult) (targets : List String) (raw : String)
    (hlen : invoked.length < max_handoffs)
    (hresp : respond current prompt = .ok raw)
    (hex : extract raw = some (.parallel targets none))
    (h0 : targets ≠ []) :
    swarmLoop parse extract respond orig current prompt invoked lastR =
      (invoked ++ [⟨false, current, prompt⟩] ++
        targets.map (fun t => ⟨true, t,
          parallel_member_prompt (get_agent_display_name current) raw orig⟩),
       ((targets.map fun t =>
          (t, match respond t (parallel_member_prompt
                (get_agent_display_name current) raw orig) with
              | .ok r => AgentResult.ok r
              | .error e => AgentResult.err e)).getLast?).map Prod.snd,
       none) := by
  rw [swarmLoop.eq_def]
  rw [dif_pos hlen, hresp]
  simp only [hex]
  cases hg : (targets.map fun t =>
      (t, match respond t (parallel_member_prompt
            (get_agent_display_name current) raw orig) with
          | .ok r => AgentResult.ok r
          | .error e => AgentResult.err e)).getLast? with
  | none =>
    exfalso
    apply h0
    have := List.getLast?_eq_none_iff.mp hg
    simpa using this
  | some p => simp [hg]

/-- Witness for `c9_amended` at the concrete two-member fan-out. -/
theorem c9_amended_witness :
    swarmLoop (fun _ => none)
      (fun r => if r = "RA" then some (.parallel ["b", "c"] none) else none)
      (fun a _ => if a = "a" then .ok "RA" else if a = "b" then .ok "RB"
        else .error "boom")
      "orig" "a" "orig" [] none =
      ([⟨false, "a", "orig"⟩,
        ⟨true, "b", parallel_member_prompt "a" "RA" "orig"⟩,
        ⟨true, "c", parallel_member_prompt "a" "RA" "orig"⟩],
       some (AgentResult.err "boom"), none) := by
  have h := c9_amended (fun _ => none)
    (fun r => if r = "RA" then some (.parallel ["b", "c"] none) else none)
    (fun a _ => if a = "a" then .ok "RA" else if a = "b" then .ok "RB"
      else .error "boom")
    "orig" "a" "orig" [] none ["b", "c"] "RA" (by decide) (by simp)
    (by simp) (by decide)
  rw [h]
  simp [get_agent_display_name]

/-! ## Swarm handoff ceiling (claim C3) -/

/-- When every extracted handoff is sequential, the loop's invocation log
never grows beyond the handoff ceiling. -/
theorem swarmLoop_single_length_aux (parse : String → Option Json)
    (extract : String → Option Handoff)
    (respond : String → String → Except String String) (orig : String)
    (hsingle : ∀ r h, extract r = some h → ∃ t, h = Handoff.single t) :
    ∀ m current prompt invoked lastR,
      max_handoffs - invoked.length ≤ m →
      invoked.length ≤ max_handoffs →
      (swarmLoop parse extract respond orig current prompt invoked
        lastR).1.length ≤ max_handoffs := by
  intro m
  induction m with
  | zero =>
    intro current prompt invoked lastR hm hle
    rw [swarmLoop.eq_def]
    have hnlt : ¬ invoked.length < max_handoffs := by omega
    rw [dif_neg hnlt]
    exact hle
  | succ m ih =>
    intro current prompt invoked lastR hm hle
    rw [swarmLoop.eq_def]
    by_cases hlt : invoked.length < max_handoffs
    · rw [dif_pos hlt]
      cases hresp : respond current prompt with
      | error e => exact hle
      | ok raw =>
        dsimp only
        cases hex : extract raw with
        | none =>
          dsimp only
          simp only [List.length_append, List.length_cons, List.length_nil]
          omega
        | some ho =>
          obtain ⟨t, rfl⟩ := hsingle raw ho hex
          dsimp only
          apply ih
          · simp only [List.length_append, List.length_cons, List.length_nil]
            omega
          · simp only [List.length_append, List.length_cons, List.length_nil]
            omega
    · rw [dif_neg hlt]
      exact hle

/-- C3 counterexample: with parallel fan-out, the total number of agent
invocations in a turn can exceed the handoff ceiling of 20. A constant
parallel handoff to two members converging back on the declarer performs
21 invocations before the ceiling check fires; the run is still reported
as the max-handoffs terminal failure with exit 1, but "terminates after at
most 20 agent invocations" is false of the code. -/
theorem c3_counterexample :
    (swarmMain (fun _ => none)
      (fun _ => some (.parallel ["b", "c"] (some "a")))
      (fun _ _ => .ok "R") "orig" "a").invoked.length = 21 ∧
    (swarmMain (fun _ => none)
      (fun _ => some (.parallel ["b", "c"] (some "a")))
      (fun _ _ => .ok "R") "orig" "a").exitCode = 1 ∧
    (swarmMain (fun _ => none)
      (fun _ => some (.parallel ["b", "c"] (some "a")))
      (fun _ _ => .ok "R") "orig" "a").events =
      ["workflow_error: Maximum handoffs (20) exceeded - possible infinite loop"] := by
  refine ⟨?_, ?_, ?_⟩ <;>
    simp [swarmMain, swarmLoop, max_handoffs]

/-- C3 amended: the swarm driver loop always terminates (the model is a
total function); when every handoff is sequential the turn performs at
most 20 (the fixed ceiling `max_handoffs`) agent invocations — with
parallel fan-out the total can exceed the ceiling by up to one fan-out
width (`c3_counterexample`) — and a turn whose invocation count reaches
the ceiling without an invocation error is reported as a workflow_error
event naming the handoff bound with exit code 1, a branch and message
distinct from the agent-invocation-error report. -/
theorem c3_amended (parse : String → Option Json)
    (extract : String → Option Handoff)
    (respond : String → String → Except String String)
    (orig entry : String)
    (hsingle : ∀ r h, extract r = some h → ∃ t, h = Handoff.single t) :
    (swarmMain parse extract respond orig entry).invoked.length ≤
      max_handoffs ∧
    (∀ log lastR,
      swarmLoop parse extract respond orig entry orig [] none =
        (log, lastR, none) →
      log.length ≥ max_handoffs →
      swarmMain parse extract respond orig entry =
        { exitCode := 1, invoked := log,
          events :=
            ["workflow_error: Maximum handoffs (20) exceeded - possible infinite loop"],
          finalResponse := lastR }) ∧
    (∀ agent e,
      ("workflow_error: Maximum handoffs (20) exceeded - possible infinite loop" :
        String) ≠ "workflow_error: Agent " ++ agent ++ " failed: " ++ e) := by
  refine ⟨?_, ?_, ?_⟩
  · have hb := swarmLoop_single_length_aux parse extract respond orig hsingle
      max_handoffs entry orig [] none (by simp) (by simp [max_handoffs])
    unfold swarmMain
    rcases hloop : swarmLoop parse extract respond orig entry orig [] none
      with ⟨log, lastR, fail⟩
    rw [hloop] at hb
    cases fail with
    | none =>
      by_cases hge : log.length ≥ max_handoffs
      · simpa [hge] using hb
      · simpa [hge] using hb
    | some p =>
      cases p with
      | mk agent e => simpa using hb
  · intro log lastR hloop hge
    unfold swarmMain
    rw [hloop]
    simp [hge]
  · intro agent e heq
    have hd := congrArg (fun s : String => s.data[16]?) heq
    simp only [data_append] at hd
    rw [List.getElem?_append_left (by simp),
      List.getElem?_append_left (by simp),
      List.getElem?_append_left (by decide)] at hd
    exact absurd hd (by decide)

/-- Witness for `c3_amended`: a two-agent sequential handoff cycle
(`a ↔ b`); the turn performs at most 20 invocations. -/
theorem c3_amended_witness :
    (swarmMain (fun _ => none)
      (fun r => some (.single (if r = "a" then "b" else "a")))
      (fun a _ => .ok a) "orig" "a").invoked.length ≤ max_handoffs :=
  (c3_amended (fun _ => none)
    (fun r => some (.single (if r = "a" then "b" else "a")))
    (fun a _ => .ok a) "orig" "a"
    (fun _ _ hh => ⟨_, (Option.some.inj hh).symm⟩)).1

/-! ## DAG validation correctness (claims C1, C2) -/

theorem alookup_mem_keys {α : Type} {l : List (String × α)} {k : String}
    {v : α} (h : alookup l k = some v) : k ∈ l.map Prod.fst := by
  induction l with
  | nil => cases h
  | cons p rest ih =>
    obtain ⟨k2, v2⟩ := p
    unfold alookup at h
    by_cases hk : k2 = k
    · simp [hk]
    · rw [if_neg hk] at h
      simpa using Or.inr (ih h)

theorem alookup_mem {α : Type} {l : List (String × α)} {k : String} {v : α}
    (h : alookup l k = some v) : (k, v) ∈ l := by
  induction l with
  | nil => cases h
  | cons p rest ih =>
    obtain ⟨k2, v2⟩ := p
    unfold alookup at h
    by_cases hk : k2 = k
    · subst hk
      rw [if_pos rfl] at h
      simp [Option.some.inj h]
    · rw [if_neg hk] at h
      exact List.mem_cons_of_mem _ (ih h)

theorem alookup_of_mem_nodup {α : Type} {l : List (String × α)} {k : String}
    {v : α} (hm : (k, v) ∈ l) (hnd : (l.map Prod.fst).Nodup) :
    alookup l k = some v := by
  induction l with
  | nil => cases hm
  | cons p rest ih =>
    obtain ⟨k2, v2⟩ := p
    rw [List.map_cons, List.nodup_cons] at hnd
    rcases List.mem_cons.mp hm with heq | hmem
    · injection heq with h1 h2
      subst h1
      subst h2
      unfold alookup
      rw [if_pos rfl]
    · have hk : k2 ≠ k := by
        intro hkk
        subst hkk
        exact hnd.1 (List.mem_map.mpr ⟨(k2, v), hmem, rfl⟩)
      unfold alookup
      rw [if_neg hk]
      exact ih hmem hnd.2

theorem DagEdge.mem_keys {dag : Dag} {a b : String}
    (h : DagEdge dag a b) : a ∈ dagKeys dag := by
  unfold DagEdge dagDeps at h
  cases hl : alookup dag a with
  | none => rw [hl] at h; cases h
  | some deps => exact alookup_mem_keys hl

/-- Shared-visited-set growth: the DFS only adds to `visited`. -/
theorem hasCycle_growth (dag : Dag) :
    (∀ fuel task visited rstack b v2,
      hasCycleVisit dag fuel task visited rstack = some (b, v2) →
      visited ⊆ v2) ∧
    (∀ fuel ds visited rstack b v2,
      hasCycleDeps dag fuel ds visited rstack = some (b, v2) →
      visited ⊆ v2) := by
  have H := hasCycleVisit.mutual_induct dag
    (fun fuel task visited rstack => ∀ b v2,
      hasCycleVisit dag fuel task visited rstack = some (b, v2) →
      visited ⊆ v2)
    (fun fuel ds visited rstack => ∀ b v2,
      hasCycleDeps dag fuel ds visited rstack = some (b, v2) →
      visited ⊆ v2)
    (by
      intro task visited rstack b v2 h
      simp only [hasCycleVisit] at h
      exact Option.noConfusion h)
    (by
      intro fuel task visited rstack hdeps b v2 h
      simp only [hasCycleVisit] at h
      exact fun x hx => hdeps b v2 h (List.mem_cons_of_mem _ hx))
    (by
      intro fuel visited rstack b v2 h
      simp only [hasCycleDeps] at h
      injection h with h2
      injection h2 with hb hv
      rw [← hv]
      exact List.Subset.refl _)
    (by
      intro fuel d ds visited rstack h1 h2 b v2 h
      simp only [hasCycleDeps, if_pos h1, if_pos h2] at h
      injection h with h2b
      injection h2b with hb hv
      rw [← hv]
      exact List.Subset.refl _)
    (by
      intro fuel d ds visited rstack h1 h2 ih b v2 h
      simp only [hasCycleDeps, if_pos h1, if_neg h2] at h
      exact ih b v2 h)
    (by
      intro fuel d ds visited rstack h1 hvis ihv b v2 h
      simp only [hasCycleDeps, if_neg h1, hvis] at h
      exact Option.noConfusion h)
    (by
      intro fuel d ds visited rstack h1 v3 hvis ihv b v2 h
      simp only [hasCycleDeps, if_neg h1, hvis] at h
      injection h with h2b
      injection h2b with hb hv
      rw [← hv]
      exact ihv true v3 hvis)
    (by
      intro fuel d ds visited rstack h1 v3 hvis ihv ihd b v2 h
      simp only [hasCycleDeps, if_neg h1, hvis] at h
      exact fun x hx => ihd b v2 h (ihv false v3 hvis hx))
  exact ⟨fun fuel task visited rstack => H.1 fuel task visited rstack,
    fun fuel ds visited rstack => H.2 fuel ds visited rstack⟩

/-- No dependency cycle is reachable from `v`. -/
def NoCycleFrom (dag : Dag) (v : String) : Prop :=
  ∀ c, Relation.ReflTransGen (DagEdge dag) v c →
    ¬ Relation.TransGen (DagEdge dag) c c

/-- DFS coloring invariant: every visited node off the recursion stack has
no reachable cycle. -/
def DfsInv (dag : Dag) (visited rstack : List String) : Prop :=
  ∀ v ∈ visited, v ∉ rstack → NoCycleFrom dag v

theorem noCycleFrom_of_deps {dag : Dag} {task : String}
    (hd : ∀ d ∈ dagDeps dag task, NoCycleFrom dag d) :
    NoCycleFrom dag task := by
  intro c hrt htc
  rcases Relation.ReflTransGen.cases_head hrt with heq | ⟨b, hb, hbc⟩
  · subst heq
    obtain ⟨b, hb, hbc⟩ := Relation.TransGen.head'_iff.mp htc
    exact hd b hb task hbc htc
  · exact hd b hb c hbc htc

/-- A `false` DFS answer preserves the coloring invariant and certifies the
task itself cycle-free. -/
theorem hasCycle_false_inv (dag : Dag) :
    (∀ fuel task visited rstack v2,
      hasCycleVisit dag fuel task visited rstack = some (false, v2) →
      DfsInv dag visited rstack →
      DfsInv dag v2 rstack ∧ task ∈ v2 ∧ visited ⊆ v2 ∧
        NoCycleFrom dag task) ∧
    (∀ fuel ds visited rstack v2,
      hasCycleDeps dag fuel ds visited rstack = some (false, v2) →
      DfsInv dag visited rstack →
      DfsInv dag v2 rstack ∧ visited ⊆ v2 ∧ ∀ d ∈ ds, NoCycleFrom dag d) := by
  have H := hasCycleVisit.mutual_induct dag
    (fun fuel task visited rstack => ∀ v2,
      hasCycleVisit dag fuel task visited rstack = some (false, v2) →
      DfsInv dag visited rstack →
      DfsInv dag v2 rstack ∧ task ∈ v2 ∧ visited ⊆ v2 ∧
        NoCycleFrom dag task)
    (fun fuel ds visited rstack => ∀ v2,
      hasCycleDeps dag fuel ds visited rstack = some (false, v2) →
      DfsInv dag visited rstack →
      DfsInv dag v2 rstack ∧ visited ⊆ v2 ∧ ∀ d ∈ ds, NoCycleFrom dag d)
    (by
      intro task visited rstack v2 h
      simp only [hasCycleVisit] at h
      exact Option.noConfusion h)
    (by
      intro fuel task visited rstack ihdeps v2 h hinv
      simp only [hasCycleVisit] at h
      have hinv2 : DfsInv dag (task :: visited) (task :: rstack) := by
        intro v hv hnr
        rcases List.mem_cons.mp hv with rfl | hv2
        · exact absurd (List.mem_cons_self v rstack) hnr
        · exact hinv v hv2 fun hr => hnr (List.mem_cons_of_mem _ hr)
      obtain ⟨hinv3, hsub, hdeps⟩ := ihdeps v2 h hinv2
      have hnc : NoCycleFrom dag task := noCycleFrom_of_deps hdeps
      refine ⟨?_, hsub (List.mem_cons_self _ _),
        fun x hx => hsub (List.mem_cons_of_mem _ hx), hnc⟩
      intro v hv hnr
      by_cases hvt : v = task
      · exact hvt ▸ hnc
      · refine hinv3 v hv ?_
        intro hmem
        rcases List.mem_cons.mp hmem with heq | hmem2
        · exact hvt heq
        · exact hnr hmem2)
    (by
      intro fuel visited rstack v2 h hinv
      simp only [hasCycleDeps] at h
      injection h with h2
      injection h2 with hb hv
      rw [← hv]
      exact ⟨hinv, List.Subset.refl _, by simp⟩)
    (by
      intro fuel d ds visited rstack h1 h2 v2 h hinv
      simp only [hasCycleDeps, if_pos h1, if_pos h2] at h
      injection h with h2b
      injection h2b with hb hv
      exact Bool.noConfusion hb)
    (by
      intro fuel d ds visited rstack h1 h2 ih v2 h hinv
      simp only [hasCycleDeps, if_pos h1, if_neg h2] at h
      obtain ⟨hi, hs, hds⟩ := ih v2 h hinv
      refine ⟨hi, hs, ?_⟩
      intro x hx
      rcases List.mem_cons.mp hx with rfl | hx2
      · exact hinv x h1 h2
      · exact hds x hx2)
    (by
      intro fuel d ds visited rstack h1 hvis ihv v2 h
      simp only [hasCycleDeps, if_neg h1, hvis] at h
      exact Option.noConfusion h)
    (by
      intro fuel d ds visited rstack h1 v3 hvis ihv v2 h
      simp only [hasCycleDeps, if_neg h1, hvis] at h
      injection h with h2b
      injection h2b with hb hv
      exact Bool.noConfusion hb)
    (by
      intro fuel d ds visited rstack h1 v3 hvis ihv ihd v2 h hinv
      simp only [hasCycleDeps, if_neg h1, hvis] at h
      obtain ⟨hinv3, hdv3, hsubv3, hncd⟩ := ihv v3 hvis hinv
      obtain ⟨hinv2, hsub2, hds⟩ := ihd v2 h hinv3
      refine ⟨hinv2, fun x hx => hsub2 (hsubv3 hx), ?_⟩
      intro x hx
      rcases List.mem_cons.mp hx with rfl | hx2
      · exact hncd
      · exact hds x hx2)
  exact ⟨fun fuel task visited rstack => H.1 fuel task visited rstack,
    fun fuel ds visited rstack => H.2 fuel ds visited rstack⟩

theorem chain_mem_rtg {dag : Dag} :
    ∀ (rest : List String) (t d : String),
      List.Chain' (fun x y => DagEdge dag y x) (t :: rest) → d ∈ t :: rest →
      Relation.ReflTransGen (DagEdge dag) d t := by
  intro rest
  induction rest with
  | nil =>
    intro t d hc hd
    have : d = t := by simpa using hd
    exact this ▸ Relation.ReflTransGen.refl
  | cons u rest2 ih =>
    intro t d hc hd
    rcases List.mem_cons.mp hd with rfl | hd2
    · exact Relation.ReflTransGen.refl
    · have hc2 := List.chain'_cons.mp hc
      exact (ih u d hc2.2 hd2).tail hc2.1

/-- A `true` DFS answer certifies a real dependency cycle: the recursion
stack is an edge chain, and a stack hit closes it. -/
theorem hasCycle_true_sound (dag : Dag) :
    (∀ fuel task visited rstack v2,
      hasCycleVisit dag fuel task visited rstack = some (true, v2) →
      List.Chain' (fun x y => DagEdge dag y x) (task :: rstack) →
      HasCycle dag) ∧
    (∀ fuel ds visited t rest v2,
      hasCycleDeps dag fuel ds visited (t :: rest) = some (true, v2) →
      List.Chain' (fun x y => DagEdge dag y x) (t :: rest) →
      (∀ d ∈ ds, DagEdge dag t d) →
      HasCycle dag) := by
  have H := hasCycleVisit.mutual_induct dag
    (fun fuel task visited rstack => ∀ v2,
      hasCycleVisit dag fuel task visited rstack = some (true, v2) →
      List.Chain' (fun x y => DagEdge dag y x) (task :: rstack) →
      HasCycle dag)
    (fun fuel ds visited rstack => ∀ t rest v2, rstack = t :: rest →
      hasCycleDeps dag fuel ds visited (t :: rest) = some (true, v2) →
      List.Chain' (fun x y => DagEdge dag y x) (t :: rest) →
      (∀ d ∈ ds, DagEdge dag t d) →
      HasCycle dag)
    (by
      intro task visited rstack v2 h
      simp only [hasCycleVisit] at h
      exact Option.noConfusion h)
    (by
      intro fuel task visited rstack ihdeps v2 h hchain
      simp only [hasCycleVisit] at h
      exact ihdeps task rstack v2 rfl h hchain fun d hd => hd)
    (by
      intro fuel visited rstack t rest v2 hrs h
      simp only [hasCycleDeps] at h
      injection h with h2
      injection h2 with hb hv
      exact Bool.noConfusion hb)
    (by
      intro fuel d ds visited rstack h1 h2 t rest v2 hrs h hchain hedges
      subst hrs
      have hrtg := chain_mem_rtg rest t d hchain h2
      have htg : Relation.TransGen (DagEdge dag) d d :=
        Relation.TransGen.tail' hrtg (hedges d (List.mem_cons_self _ _))
      exact ⟨d, htg⟩)
    (by
      intro fuel d ds visited rstack h1 h2 ih t rest v2 hrs h hchain hedges
      subst hrs
      simp only [hasCycleDeps, if_pos h1, if_neg h2] at h
      exact ih t rest v2 rfl (by simpa [hasCycleDeps] using h) hchain
        fun x hx => hedges x (List.mem_cons_of_mem _ hx))
    (by
      intro fuel d ds visited rstack h1 hvis ihv t rest v2 hrs h
      subst hrs
      simp only [hasCycleDeps, if_neg h1, hvis] at h
      exact Option.noConfusion h)
    (by
      intro fuel d ds visited rstack h1 v3 hvis ihv t rest v2 hrs h hchain
        hedges
      subst hrs
      exact ihv v3 hvis (List.chain'_cons.mpr
        ⟨hedges d (List.mem_cons_self _ _), hchain⟩))
    (by
      intro fuel d ds visited rstack h1 v3 hvis ihv ihd t rest v2 hrs h
        hchain hedges
      subst hrs
      simp only [hasCycleDeps, if_neg h1, hvis] at h
      exact ihd t rest v2 rfl (by simpa [hasCycleDeps] using h) hchain
        fun x hx => hedges x (List.mem_cons_of_mem _ hx))
  refine ⟨fun fuel task visited rstack => H.1 fuel task visited rstack, ?_⟩
  intro fuel ds visited t rest v2 h hchain hedges
  exact H.2 fuel ds visited (t :: rest) t rest v2 rfl h hchain hedges

/-- Tasks not yet visited, the decreasing measure of the DFS. -/
def remCount (dag : Dag) (visited : List String) : Nat :=
  ((dagKeys dag).filter fun k => decide (k ∉ visited)).length

theorem remCount_le_mono {dag : Dag} {v1 v2 : List String} (h : v1 ⊆ v2) :
    remCount dag v2 ≤ remCount dag v1 := by
  unfold remCount
  refine List.Sublist.length_le (List.monotone_filter_right _ ?_)
  intro a ha
  simp only [decide_eq_true_eq] at ha ⊢
  exact fun hm => ha (h hm)

theorem remCount_lt {dag : Dag} {task : String} {visited : List String}
    (hk : task ∈ dagKeys dag) (hnv : task ∉ visited) :
    remCount dag (task :: visited) < remCount dag visited := by
  unfold remCount
  have hs : ((dagKeys dag).filter fun k =>
      decide (k ∉ task :: visited)).Sublist
      ((dagKeys dag).filter fun k => decide (k ∉ visited)) := by
    refine List.monotone_filter_right _ ?_
    intro a ha
    simp only [decide_eq_true_eq, List.mem_cons, not_or] at ha ⊢
    exact ha.2
  refine Nat.lt_of_le_of_ne hs.length_le ?_
  intro heq
  have heql := hs.eq_of_length heq
  have hmem : task ∈ (dagKeys dag).filter fun k => decide (k ∉ visited) :=
    List.mem_filter.mpr ⟨hk, by simpa using hnv⟩
  rw [← heql] at hmem
  have := (List.mem_filter.mp hmem).2
  simp at this

theorem remCount_le (dag : Dag) (visited : List String) :
    remCount dag visited ≤ dag.length := by
  unfold remCount
  calc ((dagKeys dag).filter fun k => decide (k ∉ visited)).length
      ≤ (dagKeys dag).length := List.length_filter_le _ _
    _ = dag.length := by simp [dagKeys]

/-- With dependencies closed under the key set, the DFS never exhausts a
fuel budget exceeding the number of unvisited tasks. -/
theorem hasCycle_fuel (dag : Dag)
    (hcl : ∀ a b, DagEdge dag a b → b ∈ dagKeys dag) :
    (∀ fuel task visited rstack, task ∈ dagKeys dag → task ∉ visited →
      remCount dag visited < fuel →
      hasCycleVisit dag fuel task visited rstack ≠ none) ∧
    (∀ fuel ds visited rstack, (∀ d ∈ ds, d ∈ dagKeys dag) →
      remCount dag visited < fuel →
      hasCycleDeps dag fuel ds visited rstack ≠ none) := by
  have H := hasCycleVisit.mutual_induct dag
    (fun fuel task visited rstack =>
      task ∈ dagKeys dag → task ∉ visited →
      remCount dag visited < fuel →
      hasCycleVisit dag fuel task visited rstack ≠ none)
    (fun fuel ds visited rstack =>
      (∀ d ∈ ds, d ∈ dagKeys dag) →
      remCount dag visited < fuel →
      hasCycleDeps dag fuel ds visited rstack ≠ none)
    (by
      intro task visited rstack hk hnv hrem
      exact absurd hrem (Nat.not_lt_zero _))
    (by
      intro fuel task visited rstack ihdeps hk hnv hrem
      simp only [hasCycleVisit]
      refine ihdeps (fun d hd => hcl task d hd) ?_
      have h1 := @remCount_lt dag _ _ hk hnv
      omega)
    (by
      intro fuel visited rstack hks hrem
      simp [hasCycleDeps])
    (by
      intro fuel d ds visited rstack h1 h2 hks hrem
      simp [hasCycleDeps, if_pos h1, if_pos h2])
    (by
      intro fuel d ds visited rstack h1 h2 ih hks hrem
      simp only [hasCycleDeps, if_pos h1, if_neg h2]
      exact ih (fun x hx => hks x (List.mem_cons_of_mem _ hx)) hrem)
    (by
      intro fuel d ds visited rstack h1 hvis ihv hks hrem
      exact absurd hvis (ihv (hks d (List.mem_cons_self _ _)) h1 hrem))
    (by
      intro fuel d ds visited rstack h1 v3 hvis ihv hks hrem
      simp [hasCycleDeps, if_neg h1, hvis])
    (by
      intro fuel d ds visited rstack h1 v3 hvis ihv ihd hks hrem
      simp only [hasCycleDeps, if_neg h1, hvis]
      refine ihd (fun x hx => hks x (List.mem_cons_of_mem _ hx)) ?_
      have hsub := (hasCycle_growth dag).1 fuel d visited rstack false v3 hvis
      have := @remCount_le_mono dag _ _ hsub
      omega)
  exact ⟨fun fuel task visited rstack => H.1 fuel task visited rstack,
    fun fuel ds visited rstack => H.2 fuel ds visited rstack⟩

/-- A clean pass of the cycle-scan driver certifies every scanned root (and
every visited node) cycle-free. -/
theorem validateCyclesAux_ok (dag : Dag) (fuel : Nat) :
    ∀ ts visited, validateCyclesAux dag fuel ts visited = .ok () →
      DfsInv dag visited [] →
      ∀ t ∈ ts, NoCycleFrom dag t := by
  intro ts
  induction ts with
  | nil => intro visited h hinv t ht; cases ht
  | cons t ts ih =>
    intro visited h hinv x hx
    unfold validateCyclesAux at h
    by_cases hv : t ∈ visited
    · rw [if_pos hv] at h
      rcases List.mem_cons.mp hx with rfl | hx2
      · exact hinv x hv (by simp)
      · exact ih visited h hinv x hx2
    · rw [if_neg hv] at h
      cases hvis : hasCycleVisit dag fuel t visited [] with
      | none => rw [hvis] at h; cases h
      | some p =>
        obtain ⟨b, v2⟩ := p
        rw [hvis] at h
        cases b with
        | true => cases h
        | false =>
          obtain ⟨hinv2, htv2, hsub, hnc⟩ :=
            (hasCycle_false_inv dag).1 fuel t visited [] v2 hvis hinv
          rcases List.mem_cons.mp hx with rfl | hx2
          · exact hnc
          · exact ih v2 h hinv2 x hx2

/-- An error from the cycle-scan driver (run with the ample fuel budget
`dag.length + 1`) certifies a dependency cycle. -/
theorem validateCyclesAux_error (dag : Dag)
    (hcl : ∀ a b, DagEdge dag a b → b ∈ dagKeys dag) :
    ∀ ts visited e, (∀ t ∈ ts, t ∈ dagKeys dag) →
      validateCyclesAux dag (dag.length + 1) ts visited = .error e →
      HasCycle dag := by
  intro ts
  induction ts with
  | nil => intro visited e hks h; cases h
  | cons t ts ih =>
    intro visited e hks h
    unfold validateCyclesAux at h
    by_cases hv : t ∈ visited
    · rw [if_pos hv] at h
      exact ih visited e (fun x hx => hks x (List.mem_cons_of_mem _ hx)) h
    · rw [if_neg hv] at h
      cases hvis : hasCycleVisit dag (dag.length + 1) t visited [] with
      | none =>
        exfalso
        refine (hasCycle_fuel dag hcl).1 (dag.length + 1) t visited []
          (hks t (List.mem_cons_self _ _)) hv ?_ hvis
        have := remCount_le dag visited
        omega
      | some p =>
        obtain ⟨b, v2⟩ := p
        rw [hvis] at h
        cases b with
        | true =>
          exact (hasCycle_true_sound dag).1 (dag.length + 1) t visited [] v2
            hvis (List.chain'_singleton t)
        | false =>
          exact ih v2 e (fun x hx => hks x (List.mem_cons_of_mem _ hx)) h

theorem findDangling_none_iff (allT : List String) (l : Dag) :
    findDangling allT l = none ↔ ∀ p ∈ l, ∀ d ∈ p.2, d ∈ allT := by
  induction l with
  | nil => simp [findDangling]
  | cons p rest ih =>
    obtain ⟨t, deps⟩ := p
    unfold findDangling
    cases hf : deps.find? (fun d => ¬ allT.contains d) with
    | some d =>
      simp only []
      constructor
      · intro h
        cases h
      · intro h
        exfalso
        have hm := List.mem_of_find?_eq_some hf
        have hp := List.find?_some hf
        simp only [decide_eq_true_eq] at hp
        exact hp (by simpa using h (t, deps) (List.mem_cons_self _ _) d hm)
    | none =>
      simp only []
      rw [ih]
      constructor
      · intro h p hp d hd
        rcases List.mem_cons.mp hp with rfl | hp2
        · have := List.find?_eq_none.mp hf d hd
          simpa using this
        · exact h p hp2 d hd
      · intro h p hp d hd
        exact h p (List.mem_cons_of_mem _ hp) d hd

/-- `validate_dag` rejects a graph exactly when it has a dangling
dependency or a dependency cycle. -/
theorem validate_dag_error_iff (dag : Dag) :
    (∃ e, validate_dag dag = .error e) ↔
      (HasDangling dag ∨ HasCycle dag) := by
  unfold validate_dag
  cases hf : findDangling (dagKeys dag) dag with
  | some p =>
    simp only []
    constructor
    · intro _
      left
      have hne : ¬ (∀ q ∈ dag, ∀ d ∈ q.2, d ∈ dagKeys dag) := by
        intro hall
        rw [← findDangling_none_iff] at hall
        rw [hall] at hf
        cases hf
      unfold HasDangling
      push_neg at hne
      exact hne
    · intro _
      exact ⟨_, rfl⟩
  | none =>
    have hall := (findDangling_none_iff (dagKeys dag) dag).mp hf
    have hcl : ∀ a b, DagEdge dag a b → b ∈ dagKeys dag := by
      intro a b h
      unfold DagEdge dagDeps at h
      cases hl : alookup dag a with
      | none => rw [hl] at h; cases h
      | some deps =>
        rw [hl] at h
        exact hall (a, deps) (alookup_mem hl) b (by simpa using h)
    simp only []
    constructor
    · rintro ⟨e, he⟩
      right
      exact validateCyclesAux_error dag hcl (dagKeys dag) [] e
        (fun t ht => ht) he
    · rintro (hd | hc)
      · exfalso
        obtain ⟨p, hp, d, hdp, hdk⟩ := hd
        exact hdk (hall p hp d hdp)
      · cases hres : validateCyclesAux dag (dag.length + 1) (dagKeys dag) []
          with
        | error e => exact ⟨e, rfl⟩
        | ok u =>
          exfalso
          cases u
          obtain ⟨a, ha⟩ := hc
          have hak : a ∈ dagKeys dag := by
            obtain ⟨b, hab, _⟩ := Relation.TransGen.head'_iff.mp ha
            exact DagEdge.mem_keys hab
          have hnc := validateCyclesAux_ok dag (dag.length + 1)
            (dagKeys dag) [] hres
            (fun v hv _ => absurd hv (List.not_mem_nil v)) a hak
          exact hnc a Relation.ReflTransGen.refl ha

/-- C2: `validate_dag` raises `ValueError` if and only if the task graph
contains a dependency id that is not a key or a cycle of any length; in the
workflow driver this validation runs before any agent invocation, so a
cyclic or dangling graph produces zero agent invocations (and exit 1). -/
theorem c2_validate_dag (dag : Dag) (parse : String → Option Json)
    (respond : String → String → String) (args : Args) :
    ((∃ e, validate_dag dag = .error e) ↔
      (HasDangling dag ∨ HasCycle dag)) ∧
    (HasDangling dag ∨ HasCycle dag →
      (workflowMain parse dag respond args).invocations = [] ∧
      (workflowMain parse dag respond args).exitCode = 1) := by
  refine ⟨validate_dag_error_iff dag, ?_⟩
  intro h
  unfold workflowMain
  cases hv : validate_arguments parse args with
  | error msg => exact ⟨rfl, rfl⟩
  | ok u =>
    cases u
    by_cases hd : dag = []
    · rw [if_pos hd]
      exact ⟨rfl, rfl⟩
    · rw [if_neg hd]
      obtain ⟨e, he⟩ := (validate_dag_error_iff dag).mpr h
      rw [he]
      exact ⟨rfl, rfl⟩

/-- Witness for `c2_validate_dag` on the one-node self-loop graph. -/
theorem c2_validate_dag_witness :
    (HasDangling [("a", ["a"])] ∨ HasCycle [("a", ["a"])]) ∧
    (∃ e, validate_dag [("a", ["a"])] = .error e) ∧
    (workflowMain (fun _ => none) [("a", ["a"])] (fun _ _ => "")
      { prompt := "p", workflow_id := "wf",
        trace_id := "a1b2c3d4e5f6789012345678901234ab",
        turn_number := 1, conversation_context := none }).invocations = [] := by
  have hcyc : HasCycle [("a", ["a"])] :=
    ⟨"a", Relation.TransGen.single (by
      show ("a" : String) ∈ dagDeps [("a", ["a"])] "a"
      decide)⟩
  refine ⟨Or.inr hcyc, ?_, ?_⟩
  · exact (c2_validate_dag [("a", ["a"])] (fun _ => none) (fun _ _ => "")
      { prompt := "p", workflow_id := "wf",
        trace_id := "a1b2c3d4e5f6789012345678901234ab",
        turn_number := 1, conversation_context := none }).1.mpr (Or.inr hcyc)
  · exact ((c2_validate_dag [("a", ["a"])] (fun _ => none) (fun _ _ => "")
      { prompt := "p", workflow_id := "wf",
        trace_id := "a1b2c3d4e5f6789012345678901234ab",
        turn_number := 1, conversation_context := none }).2
      (Or.inr hcyc)).1

/-! ## C1: scheduler correctness on validated graphs -/

theorem alookup_ne_none_of_mem_fst {α : Type} {l : List (String × α)}
    {k : String} (h : k ∈ l.map Prod.fst) : alookup l k ≠ none := by
  induction l with
  | nil => cases h
  | cons p rest ih =>
    obtain ⟨k2, v2⟩ := p
    rw [List.map_cons] at h
    unfold alookup
    by_cases hk : k2 = k
    · rw [if_pos hk]
      exact fun hc => Option.noConfusion hc
    · rw [if_neg hk]
      apply ih
      rcases List.mem_cons.mp h with heq | hm
      · exact absurd heq.symm hk
      · exact hm

/-- Membership in the ready set, for graphs with distinct task ids: ready
means a known task, not yet completed, with all dependency ids completed. -/
theorem mem_get_ready_tasks {dag : Dag} (hnd : (dagKeys dag).Nodup)
    (completed : List String) (x : String) :
    x ∈ get_ready_tasks dag completed ↔
      (x ∈ dagKeys dag ∧ x ∉ completed ∧
        ∀ d ∈ dagDeps dag x, d ∈ completed) := by
  unfold get_ready_tasks
  constructor
  · intro hx
    obtain ⟨p, hp, hpx⟩ := List.mem_map.mp hx
    have hpf := List.mem_filter.mp hp
    have hcond := of_decide_eq_true hpf.2
    have hmem : (p.1, p.2) ∈ dag := by rw [Prod.mk.eta]; exact hpf.1
    have hdd : dagDeps dag p.1 = p.2 := by
      unfold dagDeps
      rw [alookup_of_mem_nodup hmem hnd]
      rfl
    subst hpx
    exact ⟨List.mem_map.mpr ⟨p, hpf.1, rfl⟩, hcond.1,
      fun d hd => hcond.2 d (hdd ▸ hd)⟩
  · rintro ⟨hxk, hxc, hdeps⟩
    obtain ⟨p, hp, hpx⟩ := List.mem_map.mp hxk
    have hmem : (p.1, p.2) ∈ dag := by rw [Prod.mk.eta]; exact hp
    have hdd : dagDeps dag p.1 = p.2 := by
      unfold dagDeps
      rw [alookup_of_mem_nodup hmem hnd]
      rfl
    subst hpx
    refine List.mem_map.mpr ⟨p, List.mem_filter.mpr ⟨hp, ?_⟩, rfl⟩
    exact decide_eq_true ⟨hxc, fun d hd => hdeps d (by rw [hdd]; exact hd)⟩

/-- The ready set is a sublist of the task-id list. -/
theorem get_ready_sublist (dag : Dag) (completed : List String) :
    (get_ready_tasks dag completed).Sublist (dagKeys dag) := by
  unfold get_ready_tasks dagKeys
  exact (List.filter_sublist dag).map Prod.fst

/-- On an acyclic, dependency-closed graph with distinct ids, a properly
partial completed set leaves at least one ready task (a dependency-minimal
uncompleted one): the loop can always make progress. -/
theorem exists_ready {dag : Dag} (hnd : (dagKeys dag).Nodup)
    (hcl : ∀ a b, DagEdge dag a b → b ∈ dagKeys dag)
    (hnc : ¬ HasCycle dag) {completed : List String}
    (hlt : completed.length < dag.length) :
    get_ready_tasks dag completed ≠ [] := by
  intro hre
  have hkl : (dagKeys dag).length = dag.length := by simp [dagKeys]
  have hseed : ∃ x, x ∈ dagKeys dag ∧ x ∉ completed := by
    by_contra hall
    push_neg at hall
    have hks : dagKeys dag ⊆ completed := fun x hx => hall x hx
    have hle := (hnd.subperm hks).length_le
    omega
  have hstep : ∀ x : {x : String // x ∈ dagKeys dag ∧ x ∉ completed},
      ∃ y : {x : String // x ∈ dagKeys dag ∧ x ∉ completed},
        DagEdge dag x.1 y.1 := by
    rintro ⟨x, hxk, hxc⟩
    have hnr : x ∉ get_ready_tasks dag completed := by
      rw [hre]
      exact List.not_mem_nil x
    rw [mem_get_ready_tasks hnd] at hnr
    push_neg at hnr
    obtain ⟨d, hdm, hdc⟩ := hnr hxk hxc
    exact ⟨⟨d, hcl x d hdm, hdc⟩, hdm⟩
  obtain ⟨x0, hx0⟩ := hseed
  choose g hg using hstep
  have hedge : ∀ n, DagEdge dag ((g^[n] ⟨x0, hx0⟩ : _).1)
      ((g^[n + 1] ⟨x0, hx0⟩ : _).1) := by
    intro n
    rw [Function.iterate_succ_apply' g n ⟨x0, hx0⟩]
    exact hg (g^[n] ⟨x0, hx0⟩)
  have hchain : ∀ i k, Relation.TransGen (DagEdge dag)
      ((g^[i] ⟨x0, hx0⟩ : _).1) ((g^[i + k + 1] ⟨x0, hx0⟩ : _).1) := by
    intro i k
    induction k with
    | zero => exact Relation.TransGen.single (hedge i)
    | succ k ih => exact Relation.TransGen.tail ih (hedge (i + k + 1))
  have hne2 : ∀ i j, i < j →
      ((g^[i] ⟨x0, hx0⟩ : _).1) ≠ ((g^[j] ⟨x0, hx0⟩ : _).1) := by
    intro i j hij heq
    obtain ⟨k, hk⟩ : ∃ k, j = i + k + 1 := ⟨j - i - 1, by omega⟩
    subst hk
    refine hnc ⟨(g^[i] ⟨x0, hx0⟩ : _).1, ?_⟩
    have h2 := hchain i k
    rw [← heq] at h2
    exact h2
  have hinj : Function.Injective
      (fun i : Fin (dag.length + 1) => (g^[i.1] ⟨x0, hx0⟩ : _).1) := by
    intro i j hij
    by_contra hne
    rcases Nat.lt_trichotomy i.1 j.1 with h | h | h
    · exact hne2 i.1 j.1 h hij
    · exact hne (Fin.ext h)
    · exact hne2 j.1 i.1 h hij.symm
  have hLnd : (List.ofFn fun i : Fin (dag.length + 1) =>
      (g^[i.1] ⟨x0, hx0⟩ : _).1).Nodup := List.nodup_ofFn.mpr hinj
  have hLsub : (List.ofFn fun i : Fin (dag.length + 1) =>
      (g^[i.1] ⟨x0, hx0⟩ : _).1) ⊆ dagKeys dag := by
    intro x hx
    obtain ⟨i, hi⟩ := Set.mem_range.mp ((List.mem_ofFn _ x).mp hx)
    rw [← hi]
    exact (g^[i.1] ⟨x0, hx0⟩ : _).2.1
  have hlen := (hLnd.subperm hLsub).length_le
  rw [List.length_ofFn] at hlen
  omega

theorem map_task_mk {dag : Dag} {orig : String} {completed : List String}
    {results : List (String × String)} : ∀ l : List String,
    ((l.map fun t =>
        ({ task := t, completedBefore := completed, resultsBefore := results,
           prompt := build_task_prompt t orig (depResults dag results t) :
           TaskInvocation })).map TaskInvocation.task) = l := by
  intro l
  induction l with
  | nil => rfl
  | cons a l ihl =>
    simp only [List.map_cons, List.cons.injEq]
    exact ⟨trivial, ihl⟩

theorem map_pair_fst {respond : String → String → String} :
    ∀ l : List TaskInvocation,
    ((l.map fun i => (i.task, respond i.task i.prompt)).map Prod.fst) =
      l.map TaskInvocation.task := by
  intro l
  induction l with
  | nil => rfl
  | cons a l ihl =>
    simp only [List.map_cons, List.cons.injEq]
    exact ⟨trivial, ihl⟩

/-- Invariant of the wave loop: from a duplicate-free completed set of known
tasks, consistent results and log, and enough fuel, the loop reaches the full
task set, every logged invocation being a correct dispatch. -/
theorem schedulerLoop_inv {dag : Dag} (respond : String → String → String)
    (orig : String) (hnd : (dagKeys dag).Nodup)
    (hcl : ∀ a b, DagEdge dag a b → b ∈ dagKeys dag)
    (hnc : ¬ HasCycle dag) :
    ∀ (fuel : Nat) (completed : List String)
      (results : List (String × String)) (log : List TaskInvocation),
      completed.Nodup →
      (∀ x ∈ completed, x ∈ dagKeys dag) →
      results.map Prod.fst = completed →
      log.map TaskInvocation.task = completed →
      (∀ i ∈ log, GoodInvocation dag orig i) →
      dag.length < completed.length + fuel →
      ∃ log2 completed2 results2,
        schedulerLoop dag respond orig fuel completed results log =
          .ok (log2, completed2, results2) ∧
        completed2.Nodup ∧
        (∀ x ∈ completed2, x ∈ dagKeys dag) ∧
        completed2.length = dag.length ∧
        log2.map TaskInvocation.task = completed2 ∧
        (∀ i ∈ log2, GoodInvocation dag orig i) := by
  intro fuel
  induction fuel with
  | zero =>
    intro completed results log hcnd hcsub hres hlog hgood hfuel
    exfalso
    have hle := (hcnd.subperm hcsub).length_le
    have hkl : (dagKeys dag).length = dag.length := by simp [dagKeys]
    omega
  | succ fuel ih =>
    intro completed results log hcnd hcsub hres hlog hgood hfuel
    simp only [schedulerLoop]
    by_cases hlt : completed.length < dag.length
    · have hready := exists_ready hnd hcl hnc hlt
      rw [if_pos hlt, if_neg hready]
      have hrmem := fun t ht => (mem_get_ready_tasks hnd completed t).mp ht
      have hrnd : (get_ready_tasks dag completed).Nodup :=
        List.Nodup.sublist (get_ready_sublist dag completed) hnd
      apply ih
      · rw [List.nodup_append]
        exact ⟨hcnd, hrnd, fun a hac har => (hrmem a har).2.1 hac⟩
      · intro x hx
        rcases List.mem_append.mp hx with h | h
        · exact hcsub x h
        · exact (hrmem x h).1
      · rw [List.map_append, hres, map_pair_fst, map_task_mk]
      · rw [List.map_append, hlog, map_task_mk]
      · intro i hi
        rcases List.mem_append.mp hi with h | h
        · exact hgood i h
        · obtain ⟨t, ht, hti⟩ := List.mem_map.mp h
          rw [← hti]
          refine ⟨(hrmem t ht).2.1, (hrmem t ht).2.2, rfl, ?_⟩
          intro d hd
          apply alookup_ne_none_of_mem_fst
          rw [hres]
          exact (hrmem t ht).2.2 d hd
      · have hrl : 0 < (get_ready_tasks dag completed).length :=
          List.length_pos.mpr hready
        rw [List.length_append]
        omega
    · rw [if_neg hlt]
      have hle := (hcnd.subperm hcsub).length_le
      have hkl : (dagKeys dag).length = dag.length := by simp [dagKeys]
      exact ⟨log, completed, results, rfl, hcnd, hcsub, by omega, hlog, hgood⟩

/-- C1: for every task graph with distinct task ids that passes
`validate_dag` (acyclic, no dangling dependencies), with every agent
invocation succeeding, the wave loop terminates successfully, invokes every
task exactly once (the invocation log is a permutation of the task ids, each
counted once), dispatches a task only when it is not yet completed with all
its dependency ids in the completed set and its prompt built from its
dependencies' results, and ends with the completed set equal to the full
task set of size N. -/
theorem c1_scheduler (dag : Dag) (respond : String → String → String)
    (orig : String) (hnd : (dagKeys dag).Nodup)
    (hok : validate_dag dag = .ok ()) :
    ∃ log completed results,
      schedulerLoop dag respond orig (dag.length + 1) [] [] [] =
        .ok (log, completed, results) ∧
      (log.map TaskInvocation.task).Perm (dagKeys dag) ∧
      (∀ t ∈ dagKeys dag, (log.map TaskInvocation.task).count t = 1) ∧
      (∀ i ∈ log, i.task ∉ i.completedBefore ∧
        (∀ d ∈ dagDeps dag i.task, d ∈ i.completedBefore) ∧
        i.prompt = build_task_prompt i.task orig
          (depResults dag i.resultsBefore i.task)) ∧
      completed.Perm (dagKeys dag) ∧
      completed.length = dag.length := by
  have hnoerr : ¬ (HasDangling dag ∨ HasCycle dag) := by
    rw [← validate_dag_error_iff]
    rintro ⟨e, he⟩
    rw [hok] at he
    cases he
  have hnc : ¬ HasCycle dag := fun h => hnoerr (Or.inr h)
  have hcl : ∀ a b, DagEdge dag a b → b ∈ dagKeys dag := by
    intro a b h
    by_contra hbk
    apply hnoerr
    left
    unfold DagEdge dagDeps at h
    cases hl : alookup dag a with
    | none =>
      rw [hl] at h
      cases h
    | some deps =>
      rw [hl] at h
      exact ⟨(a, deps), alookup_mem hl, b, by simpa using h, hbk⟩
  obtain ⟨log2, completed2, results2, hrun, hc2nd, hc2sub, hc2len, hlogmap,
      hgood⟩ :=
    schedulerLoop_inv respond orig hnd hcl hnc (dag.length + 1) [] [] []
      List.nodup_nil (fun x hx => absurd hx (List.not_mem_nil x)) rfl rfl
      (fun i hi => absurd hi (List.not_mem_nil i)) (by omega)
  have hkl : (dagKeys dag).length = dag.length := by simp [dagKeys]
  have hperm : completed2.Perm (dagKeys dag) :=
    List.Subperm.perm_of_length_le (hc2nd.subperm hc2sub) (by omega)
  have hlperm : (log2.map TaskInvocation.task).Perm (dagKeys dag) :=
    hlogmap.symm ▸ hperm
  refine ⟨log2, completed2, results2, hrun, hlperm, ?_, ?_, hperm, hc2len⟩
  · intro t ht
    rw [hlperm.count_eq]
    exact List.count_eq_one_of_mem hnd ht
  · intro i hi
    obtain ⟨h1, h2, h3, _⟩ := hgood i hi
    exact ⟨h1, h2, h3⟩

/-- Witness for `c1_scheduler` on the diamond graph fetch, a, b, merge. -/
theorem c1_scheduler_witness :
    ∃ log completed results,
      schedulerLoop [("fetch", []), ("a", ["fetch"]), ("b", ["fetch"]),
          ("merge", ["a", "b"])] (fun t _ => "r-" ++ t) "orig"
          ([("fetch", ([] : List String)), ("a", ["fetch"]), ("b", ["fetch"]),
            ("merge", ["a", "b"])].length + 1) [] [] [] =
        .ok (log, completed, results) ∧
      completed.Perm (dagKeys [("fetch", []), ("a", ["fetch"]),
        ("b", ["fetch"]), ("merge", ["a", "b"])]) ∧
      completed.length = 4 := by
  obtain ⟨log, completed, results, h1, _, _, _, h5, h6⟩ :=
    c1_scheduler [("fetch", []), ("a", ["fetch"]), ("b", ["fetch"]),
      ("merge", ["a", "b"])] (fun t _ => "r-" ++ t) "orig" (by decide)
      (by simp [validate_dag, findDangling, validateCyclesAux, hasCycleVisit,
        hasCycleDeps, dagKeys, dagDeps, alookup])
  exact ⟨log, completed, results, h1, h5, h6⟩

end Agentify
